import Mathlib

/-
Verification of the multitasking core of a small x86 kernel
(kernel/sys/task.c): address-space cloning and freeing, fork/clone,
task switching and reaping.

The development is a shallow embedding.  Pointer-valued C data is
modelled with natural-number addresses; `uintptr_t` arithmetic is
modelled with explicit arithmetic modulo 2^32.  The kernel heap,
frame allocator and the process-tree queues are external collaborators
of task.c; where a definition stands in for such a collaborator its
doc comment says `Modelled from the spec:` and names the missing code.

Two levels of abstraction are used, mirroring the two halves of task.c:

* a memory model (`mem_state`) for `clone_table`, `clone_directory`
  and `free_directory`, which tracks the heap of page tables, the
  allocated-frame list and the live table allocations;
* a process-level model (`kernel_state`) for `fork`, `clone`,
  `switch_task` and `switch_next`, in which the address-space cloner
  appears as an opaque allocation and every collaborator call is
  recorded in an event log together with the interrupt flag at the
  moment of the call.
-/

set_option maxHeartbeats 1000000
set_option maxRecDepth 8192

/-! ## 32-bit pointer arithmetic -/

/-- Modulus of 32-bit machine words (`uintptr_t` on this target). -/
def U32 : Nat := 4294967296

/-- Addition of two `uintptr_t` values (wraparound at 2^32). -/
def add32 (a b : Nat) : Nat := (a + b) % U32

/-- Subtraction of two `uintptr_t` values (two's-complement wraparound). -/
def sub32 (a b : Nat) : Nat := (a + (U32 - b % U32)) % U32

/-- Magic cookie `0xDEADBEEF` placed on the stack by fork/clone. -/
def TASK_MAGIC : Nat := 0xDEADBEEF

/-- Resumption sentinel loaded into the accumulator by `switch_next`. -/
def SWITCH_SENTINEL : Nat := 0x10000

/-- ESP/EBP fixup performed by `fork` (task.c lines 176-182) and by
`clone` (lines 241-247): translate the parent's live `esp`/`ebp` into the
child's kernel stack, with one branch per ordering of the two
top-of-stack addresses.  Returns the pair (child `thread.esp`,
child `thread.ebp`). -/
def stack_fixup (esp ebp cur_stack new_stack : Nat) : Nat × Nat :=
  if cur_stack > new_stack then
    (sub32 esp (sub32 cur_stack new_stack), sub32 ebp (sub32 cur_stack new_stack))
  else
    (add32 esp (sub32 new_stack cur_stack), sub32 ebp (sub32 cur_stack new_stack))

/-! ## Memory model: pages, page tables, page directories -/

/-- An x86 page-table entry as used by task.c: the five access bits that
`clone_table` mirrors, plus the frame number. -/
structure page_t where
  present : Bool
  rw : Bool
  user : Bool
  accessed : Bool
  dirty : Bool
  frame : Nat
deriving DecidableEq

/-- Zeroed page entry (result of `memset(table, 0, ...)`). -/
def empty_page : page_t :=
  { present := false, rw := false, user := false, accessed := false,
    dirty := false, frame := 0 }

/-- A page table: 1024 page entries. -/
structure page_table_t where
  pages : Fin 1024 → page_t

/-- Zeroed page table. -/
def empty_table : page_table_t := { pages := fun _ => empty_page }

/-- A page directory: the virtual addresses of the 1024 tables
(`0` encodes a null pointer), the physical entries the CPU walks, and
the cached physical address of the `physical_tables` array. -/
structure page_directory_t where
  tables : Fin 1024 → Nat
  physical_tables : Fin 1024 → Nat
  physical_address : Nat

/-- The `0xFFFFFFFF` "absent/skip" sentinel for directory entries. -/
def PDE_SENTINEL : Nat := 0xFFFFFFFF

/-- State of the memory subsystem seen by task.c: the contents of the
kernel heap at page-table granularity (`heap a` is the page table stored
at virtual address `a`), the allocation counters of the heap and of the
frame allocator, the list of currently allocated frames, the list of
live heap allocations made by this subsystem, and the log of physical
page-copy requests. -/
structure mem_state where
  heap : Nat → page_table_t
  nextVirt : Nat
  nextPhys : Nat
  nextFrame : Nat
  frames : List Nat
  tables_live : List Nat
  copies : List (Nat × Nat)

/-- Modelled from the spec: `kvmalloc_p` (kernel heap, external) returns
a fresh page-aligned virtual address together with the physical address
it maps to.  Fresh virtual addresses are handed out by a counter;
physical addresses advance by one page. -/
def kvmalloc_p (s : mem_state) : (Nat × Nat) × mem_state :=
  ((s.nextVirt, s.nextPhys),
   { s with nextVirt := s.nextVirt + 1, nextPhys := s.nextPhys + 4096,
            tables_live := s.nextVirt :: s.tables_live })

/-- Modelled from the spec: `alloc_frame(&page, 0, 0)` (physical frame
allocator, external) allocates a fresh physical frame and records it in
the page entry's frame field. -/
def alloc_frame (pg : page_t) (s : mem_state) : page_t × mem_state :=
  ({ pg with frame := s.nextFrame },
   { s with nextFrame := s.nextFrame + 1, frames := s.nextFrame :: s.frames })

/-- Modelled from the spec: `free_frame` (external) returns the frame
recorded in the page entry to the allocator. -/
def free_frame (pg : page_t) (s : mem_state) : mem_state :=
  { s with frames := s.frames.erase pg.frame }

/-- Modelled from the spec: `copy_page_physical` (external) requests a
physical copy of 4 KiB from the first physical address to the second;
the model records the request. -/
def copy_page_physical (src dst : Nat) (s : mem_state) : mem_state :=
  { s with copies := s.copies ++ [(src, dst)] }

/-- Modelled from the spec: `free` (kernel heap, external) releases a
live heap allocation. -/
def kfree (a : Nat) (s : mem_state) : mem_state :=
  { s with tables_live := s.tables_live.erase a }

/-- The five conditional bit assignments of `clone_table`
(task.c lines 107-111): each access bit of the destination entry is set
when the corresponding source bit is set. -/
def set_bits (pg sp : page_t) : page_t :=
  { pg with
    present := if sp.present then true else pg.present,
    rw := if sp.rw then true else pg.rw,
    user := if sp.user then true else pg.user,
    accessed := if sp.accessed then true else pg.accessed,
    dirty := if sp.dirty then true else pg.dirty }

/-- Body of the `for` loop of `clone_table` (task.c lines 99-114) at one
index: skip entries with a zero frame; otherwise allocate a fresh frame
into the new entry, mirror the access bits, and request a physical copy
of the source frame. -/
def clone_table_step (src : page_table_t) (acc : page_table_t × mem_state)
    (i : Fin 1024) : page_table_t × mem_state :=
  let table := acc.1
  let s := acc.2
  if (src.pages i).frame = 0 then (table, s)
  else
    let r := alloc_frame (table.pages i) s
    let pg := set_bits r.1 (src.pages i)
    let s := copy_page_physical ((src.pages i).frame * 4096) (pg.frame * 4096) r.2
    ({ table with pages := Function.update table.pages i pg }, s)

/-- The `for` loop of `clone_table` over all 1024 indices. -/
def clone_table_loop (src t : page_table_t) (s : mem_state) : page_table_t × mem_state :=
  (List.finRange 1024).foldl (clone_table_step src) (t, s)

/-- Embedding of `clone_table` (task.c lines 90-116): allocate and zero a
new page table, process the 1024 entries, and store the table at the
fresh virtual address.  Returns the new table's virtual and physical
addresses, as the C function returns the pointer and fills `*physAddr`. -/
def clone_table (src : page_table_t) (s : mem_state) : (Nat × Nat) × mem_state :=
  let r0 := kvmalloc_p s
  let v := r0.1.1
  let p := r0.1.2
  let r1 := clone_table_loop src empty_table r0.2
  ((v, p), { r1.2 with heap := Function.update r1.2.heap v r1.1 })

/-- Body of the `for` loop of `clone_directory` (task.c lines 35-50) at
one index: skip null or `0xFFFFFFFF` entries; link kernel tables by
reference; deep-clone user tables via `clone_table`, storing the new
physical address ORed with the PDE flags `0x07`. -/
def clone_directory_step (kernel src : page_directory_t)
    (acc : page_directory_t × mem_state) (i : Fin 1024) :
    page_directory_t × mem_state :=
  let dir := acc.1
  let s := acc.2
  if src.tables i = 0 ∨ src.tables i = PDE_SENTINEL then (dir, s)
  else if kernel.tables i = src.tables i then
    ({ dir with tables := Function.update dir.tables i (src.tables i),
                physical_tables := Function.update dir.physical_tables i (src.physical_tables i) }, s)
  else
    let r := clone_table (s.heap (src.tables i)) s
    ({ dir with tables := Function.update dir.tables i r.1.1,
                physical_tables := Function.update dir.physical_tables i (r.1.2 ||| 0x07) }, r.2)

/-- Embedding of `clone_directory` (task.c lines 21-52): allocate and
zero a new directory, record its physical address, and process the 1024
entries.  The directory structure itself lives outside the page-table
heap, so the function returns its fresh virtual address (for the later
`free`) together with its contents.  The `offset` correction of
`physical_address` concerns the in-struct layout of `physical_tables`
and is abstracted to the allocation's physical address.  The `for` loop
over all 1024 indices is the separate `clone_directory_loop`. -/
def clone_directory_loop (kernel src : page_directory_t) (dir : page_directory_t)
    (s : mem_state) : page_directory_t × mem_state :=
  (List.finRange 1024).foldl (clone_directory_step kernel src) (dir, s)

def clone_directory (kernel src : page_directory_t) (s : mem_state) :
    (Nat × page_directory_t) × mem_state :=
  let r0 := kvmalloc_p s
  let v := r0.1.1
  let p := r0.1.2
  let dir0 : page_directory_t :=
    { tables := fun _ => 0, physical_tables := fun _ => 0, physical_address := p }
  let r1 := clone_directory_loop kernel src dir0 r0.2
  ((v, r1.1), r1.2)

/-- The zeroed directory `clone_directory` starts from, carrying the
fresh allocation's physical address. -/
def cd_dir0 (s : mem_state) : page_directory_t :=
  { tables := fun _ => 0, physical_tables := fun _ => 0, physical_address := s.nextPhys }

/-- The memory state right after `clone_directory`'s own `kvmalloc_p`
allocation, before the entry loop runs. -/
def cd_state0 (s : mem_state) : mem_state :=
  { s with nextVirt := s.nextVirt + 1, nextPhys := s.nextPhys + 4096,
           tables_live := s.nextVirt :: s.tables_live }

/-- The in-progress state of `clone_directory`'s entry loop at the
moment index `i` is reached: the fold of the loop body over the entries
before `i`, starting from the zeroed directory and the post-allocation
memory state. -/
def cd_mid (kernel src : page_directory_t) (s : mem_state) (i : Fin 1024) :
    page_directory_t × mem_state :=
  ((List.finRange 1024).take i.val).foldl (clone_directory_step kernel src)
    (cd_dir0 s, cd_state0 s)

/-- Body of the inner `for` loop of `free_directory` (task.c lines
64-68) at one index: return to the allocator every page of the table
whose frame field is non-zero. -/
def free_table_pages_step (t : page_table_t) (s : mem_state) (j : Fin 1024) :
    mem_state :=
  if (t.pages j).frame = 0 then s else free_frame (t.pages j) s

/-- The inner `for` loop of `free_directory` over all 1024 pages of one
table. -/
def free_table_pages_loop (t : page_table_t) (s : mem_state) : mem_state :=
  (List.finRange 1024).foldl (free_table_pages_step t) s

/-- Body of the outer `for` loop of `free_directory` (task.c lines
59-71) at one index: skip null or sentinel entries and entries shared
with the kernel directory; otherwise free every allocated frame of the
table and then the table itself. -/
def free_directory_step (kernel dir : page_directory_t) (s : mem_state)
    (i : Fin 1024) : mem_state :=
  if dir.tables i = 0 ∨ dir.tables i = PDE_SENTINEL then s
  else if kernel.tables i = dir.tables i then s
  else
    let t := s.heap (dir.tables i)
    let s := free_table_pages_loop t s
    kfree (dir.tables i) s

/-- The outer `for` loop of `free_directory` over all 1024 directory
entries. -/
def free_directory_loop (kernel dir : page_directory_t) (s : mem_state) : mem_state :=
  (List.finRange 1024).foldl (free_directory_step kernel dir) s

/-- Embedding of `free_directory` (task.c lines 57-73): free every owned
table (with its frames), then the directory structure itself. -/
def free_directory (kernel : page_directory_t) (dirAddr : Nat)
    (dir : page_directory_t) (s : mem_state) : mem_state :=
  let s := free_directory_loop kernel dir s
  kfree dirAddr s

attribute [irreducible] clone_table_loop clone_directory_loop
attribute [irreducible] free_table_pages_loop free_directory_loop

/-! ## Process-level model -/

/-- Saved machine context of a process (`thread` in process.h). -/
structure thread_t where
  esp : Nat
  ebp : Nat
  eip : Nat
  page_directory : Nat
deriving DecidableEq

/-- Image data owned by task.c: the top address of the kernel stack. -/
structure image_t where
  stack : Nat
deriving DecidableEq

/-- A process record, restricted to the fields task.c reads or writes. -/
structure process_t where
  id : Nat
  thread : thread_t
  image : image_t
  syscall_registers : Nat
deriving DecidableEq

/-- Collaborator calls made by fork/clone, recorded in the event log.
`kprintf_clone` carries the address of the trap frame whose `esp` field
clone prints. -/
inductive kop where
  | clone_directory_call : kop
  | spawn_process_call : kop
  | set_process_environment_call : kop
  | read_eip_call : kop
  | memcpy_stack : kop
  | make_process_ready_call : kop
  | kprintf_clone : Nat → kop
deriving DecidableEq

/-- Process-level kernel state: the running process, the interrupt flag,
the allocation counters of the external collaborators, the scheduler
queues, the reap log, a flag recording whether `switch_next` performed
its context switch, and the event log of collaborator calls (each paired
with the interrupt flag at the moment of the call). -/
structure kernel_state where
  current_process : Option process_t
  interrupts : Bool
  next_pid : Nat
  next_stack : Nat
  next_dir : Nat
  current_directory : Nat
  ready_queue : List process_t
  reapable_queue : List process_t
  reaped : List process_t
  switch_next_called : Bool
  ops : List (kop × Bool)

/-- Record a collaborator call together with the current interrupt flag. -/
def log (o : kop) (s : kernel_state) : kernel_state :=
  { s with ops := s.ops ++ [(o, s.interrupts)] }

/-- Embedding of the `IRQ_OFF` macro: disable interrupts. -/
def IRQ_OFF (s : kernel_state) : kernel_state := { s with interrupts := false }

/-- Embedding of the `IRQ_RES` macro: re-enable interrupts (fork is
entered from an enabled context, which `IRQ_RES` restores). -/
def IRQ_RES (s : kernel_state) : kernel_state := { s with interrupts := true }

/-- Modelled from the spec: `spawn_process` (process tree, external)
returns a zeroed process record with a new unique pid and a freshly
allocated kernel stack of `kss` bytes, whose top address is returned in
`image.stack`. -/
def spawn_process (kss : Nat) (s : kernel_state) : process_t × kernel_state :=
  let p : process_t :=
    { id := s.next_pid,
      thread := { esp := 0, ebp := 0, eip := 0, page_directory := 0 },
      image := { stack := s.next_stack + kss },
      syscall_registers := 0 }
  (p, { (log .spawn_process_call s) with
          next_pid := s.next_pid + 1, next_stack := s.next_stack + kss })

/-- Address-space cloning as seen from fork: at the process level the
cloner of `clone_directory` is an opaque allocation of a fresh address
space (its page-table-level behaviour is verified separately on
`mem_state`). -/
def clone_directory_abs (s : kernel_state) : Nat × kernel_state :=
  (s.next_dir, { (log .clone_directory_call s) with next_dir := s.next_dir + 1 })

/-- Modelled from the spec: `make_process_ready` (external) appends the
process to the ready queue. -/
def make_process_ready (p : process_t) (s : kernel_state) : kernel_state :=
  { s with ready_queue := s.ready_queue ++ [p] }

/-- Continuation of `fork` after `read_eip()` (task.c lines 168-205):
the code both control flows execute when they run from the recorded
instruction pointer.  `magic` is the stack cookie, `parent` the captured
parent pointer, `new_proc` the spawned child; `esp`/`ebp` are the live
registers read in the parent branch.  Failed assertions yield `none`. -/
def fork_after_eip (kss esp ebp eip magic : Nat) (parent new_proc : process_t)
    (s : kernel_state) : Option (Nat × kernel_state) :=
  match s.current_process with
  | none => none
  | some cur =>
    if cur = parent then
      if magic = TASK_MAGIC then
        let fix := stack_fixup esp ebp cur.image.stack new_proc.image.stack
        let new_proc := { new_proc with thread :=
          { new_proc.thread with esp := fix.1, ebp := fix.2 } }
        let s := log .memcpy_stack s
        let o_stack := sub32 cur.image.stack kss
        let n_stack := sub32 new_proc.image.stack kss
        let offset := sub32 cur.syscall_registers o_stack
        let new_proc := { new_proc with syscall_registers := add32 n_stack offset }
        let new_proc := { new_proc with thread := { new_proc.thread with eip := eip } }
        let s := log .make_process_ready_call (make_process_ready new_proc s)
        let s := IRQ_RES s
        some (new_proc.id, s)
      else none
    else
      if magic = TASK_MAGIC then some (0, s) else none

/-- Embedding of `fork` (task.c lines 147-206), straight-line execution
of the calling (parent) control flow: disable interrupts, clone the
address space, spawn the child, bind the directory, read the
instruction pointer (`eip` is the captured return address) and run the
continuation.  `kss` is `KERNEL_STACK_SIZE` (defined in an external
header). -/
def fork (kss esp ebp eip : Nat) (s0 : kernel_state) : Option (Nat × kernel_state) :=
  let s := IRQ_OFF s0
  match s.current_process with
  | none => none
  | some parent =>
    let r1 := clone_directory_abs s
    let r2 := spawn_process kss r1.2
    let new_proc := { r2.1 with thread := { r2.1.thread with page_directory := r1.1 } }
    let s := log .set_process_environment_call r2.2
    let s := log .read_eip_call s
    fork_after_eip kss esp ebp eip TASK_MAGIC parent new_proc s

/-- Continuation of `clone` after `read_eip()` (task.c lines 233-269):
identical to fork's continuation except that the parent branch does not
re-enable interrupts. -/
def clone_after_eip (kss esp ebp eip magic : Nat) (parent new_proc : process_t)
    (s : kernel_state) : Option (Nat × kernel_state) :=
  match s.current_process with
  | none => none
  | some cur =>
    if cur = parent then
      if magic = TASK_MAGIC then
        let fix := stack_fixup esp ebp cur.image.stack new_proc.image.stack
        let new_proc := { new_proc with thread :=
          { new_proc.thread with esp := fix.1, ebp := fix.2 } }
        let s := log .memcpy_stack s
        let o_stack := sub32 cur.image.stack kss
        let n_stack := sub32 new_proc.image.stack kss
        let offset := sub32 cur.syscall_registers o_stack
        let new_proc := { new_proc with syscall_registers := add32 n_stack offset }
        let new_proc := { new_proc with thread := { new_proc.thread with eip := eip } }
        let s := log .make_process_ready_call (make_process_ready new_proc s)
        some (new_proc.id, s)
      else none
    else
      if magic = TASK_MAGIC then some (0, s) else none

/-- Embedding of `clone` (task.c lines 212-270), straight-line execution
of the calling control flow: print the trap-frame stack pointer, reuse
the caller's current directory, spawn the child, bind the directory,
read the instruction pointer and run the continuation.  The
`stack_top`/`stack_old` parameters are declared but never read; the
dereference `r->esp` of the kprintf is abstracted to the trap frame's
address since `struct regs` is external. -/
def clone (kss stack_top stack_old esp ebp eip : Nat) (s0 : kernel_state) :
    Option (Nat × kernel_state) :=
  match s0.current_process with
  | none => none
  | some parent =>
    let s := log (.kprintf_clone parent.syscall_registers) s0
    let directory := s.current_directory
    let r2 := spawn_process kss s
    let new_proc := { r2.1 with thread := { r2.1.thread with page_directory := directory } }
    let s := log .set_process_environment_call r2.2
    let s := log .read_eip_call s
    clone_after_eip kss esp ebp eip TASK_MAGIC parent new_proc s

/-- Modelled from the spec: `process_available` (external) reports
whether another runnable process exists in the ready queue. -/
def process_available (s : kernel_state) : Bool := !s.ready_queue.isEmpty

/-- Embedding of the reap-drain loop of `switch_task` (task.c lines
316-321): while `should_reap()` holds, pop the next reapable process
and call `reap_process` on it.  `should_reap` and
`next_reapable_process` are external; the spec describes them as
testing and popping the reapable queue, so the loop is structural
recursion on that queue, and each `reap_process` call is recorded in
the reap log. -/
def reap_drain (q : List process_t) (s : kernel_state) : kernel_state :=
  match q with
  | [] => s
  | p :: rest =>
    reap_drain rest { s with reapable_queue := rest, reaped := s.reaped ++ [p] }

/-- Embedding of `switch_next` (task.c lines 345-372): pop the next
ready process, install it as current together with its page directory,
and perform the context switch (the assembly jump and the kernel-text
assertion are summarised by the `switch_next_called` flag). -/
def switch_next (s : kernel_state) : kernel_state :=
  let s := { s with current_process := s.ready_queue.head?,
                    ready_queue := s.ready_queue.tail }
  let s := { s with current_directory :=
    match s.current_process with
    | some p => p.thread.page_directory
    | none => s.current_directory }
  { s with switch_next_called := true }

/-- Embedding of `switch_task` (task.c lines 298-337): early-return when
tasking is not installed or no other process is runnable; on the
resumption arm (captured `eip` equal to the `0x10000` sentinel) drain
the reapable queue and return; otherwise save the captured registers,
optionally re-enqueue the current process, and switch to the next task.
`esp`/`ebp`/`eip` are the registers captured by the inline assembly and
`read_eip`. -/
def switch_task (reschedule : Bool) (esp ebp eip : Nat) (s : kernel_state) :
    kernel_state :=
  match s.current_process with
  | none => s
  | some cur =>
    if !process_available s then s
    else if eip = SWITCH_SENTINEL then
      reap_drain s.reapable_queue s
    else
      let cur := { cur with thread := { cur.thread with eip := eip, esp := esp, ebp := ebp } }
      let s := { s with current_process := some cur }
      let s := if reschedule then make_process_ready cur s else s
      switch_next s

/-! ## Proof-support definitions for the memory model -/

/-- Number of entries of a source table with a non-zero frame among the
given indices (the entries `clone_table` allocates a frame for). -/
def nz_l (src : page_table_t) : List (Fin 1024) → Nat
  | [] => 0
  | i :: r => (if (src.pages i).frame = 0 then 0 else 1) + nz_l src r

/-- Recursive specification of the table built by `clone_table`'s loop
over the given indices, threading the frame-allocation counter. -/
def ct_build (src : page_table_t) : List (Fin 1024) → page_table_t → Nat → page_table_t
  | [], t, _ => t
  | i :: r, t, f =>
    if (src.pages i).frame = 0 then ct_build src r t f
    else ct_build src r
      { t with pages := (Function.update t.pages i
          (set_bits { t.pages i with frame := f } (src.pages i))) } (f + 1)

/-- Recursive specification of the physical-copy requests issued by
`clone_table`'s loop over the given indices. -/
def ct_copies (src : page_table_t) : List (Fin 1024) → Nat → List (Nat × Nat)
  | [], _ => []
  | i :: r, f =>
    if (src.pages i).frame = 0 then ct_copies src r f
    else ((src.pages i).frame * 4096, f * 4096) :: ct_copies src r (f + 1)

/-- Frames recorded in a table's non-zero entries, in index order over
the given indices. -/
def frame_list_over : List (Fin 1024) → page_table_t → List Nat
  | [], _ => []
  | j :: r, t =>
    if (t.pages j).frame = 0 then frame_list_over r t
    else (t.pages j).frame :: frame_list_over r t

/-- Frames recorded in a table's non-zero entries, in index order: what
the inner loop of `free_directory` passes to `free_frame`. -/
def table_frame_list (t : page_table_t) : List Nat :=
  frame_list_over (List.finRange 1024) t

/-- Frames `free_directory` returns to the allocator over the given
indices, in free order: nothing for null/sentinel or kernel-shared
entries, and the owned table's recorded frames otherwise. -/
def freed_frames_over (kernel dir : page_directory_t) (heap : Nat → page_table_t) :
    List (Fin 1024) → List Nat
  | [] => []
  | i :: r =>
    (if dir.tables i = 0 ∨ dir.tables i = PDE_SENTINEL then ([] : List Nat)
     else if kernel.tables i = dir.tables i then []
     else table_frame_list (heap (dir.tables i))) ++ freed_frames_over kernel dir heap r

/-- Heap addresses `free_directory` frees over the given indices, in
free order. -/
def freed_addrs_over (kernel dir : page_directory_t) : List (Fin 1024) → List Nat
  | [] => []
  | i :: r =>
    (if dir.tables i = 0 ∨ dir.tables i = PDE_SENTINEL then ([] : List Nat)
     else if kernel.tables i = dir.tables i then []
     else [dir.tables i]) ++ freed_addrs_over kernel dir r

/-- Well-formedness of a memory state relative to the kernel directory
and a source directory: every pre-existing table address (including the
`0xFFFFFFFF` sentinel value) is below the allocation counter, so fresh
addresses collide with nothing, and the frame allocator never hands out
frame number 0 (which page entries use to encode "no frame"). -/
structure mem_ok (kernel src : page_directory_t) (s : mem_state) : Prop where
  sentinel_lt : PDE_SENTINEL < s.nextVirt
  kernel_lt : ∀ i, kernel.tables i < s.nextVirt
  src_lt : ∀ i, src.tables i < s.nextVirt
  frame_pos : 0 < s.nextFrame

/-! ## Concrete states for witnesses and counterexamples -/

/-- Concrete process used by witness states. -/
def w_proc : process_t :=
  { id := 0,
    thread := { esp := 0, ebp := 0, eip := 0, page_directory := 0 },
    image := { stack := 4096 },
    syscall_registers := 100 }

/-- Concrete kernel state used by witnesses: tasking installed, one
ready and one reapable process, empty event log. -/
def w_state : kernel_state :=
  { current_process := some w_proc,
    interrupts := true,
    next_pid := 1,
    next_stack := 8192,
    next_dir := 1,
    current_directory := 0,
    ready_queue := [w_proc],
    reapable_queue := [w_proc],
    reaped := [],
    switch_next_called := false,
    ops := [] }

/-- Concrete kernel state with an empty ready queue. -/
def w_state_empty : kernel_state := { w_state with ready_queue := [] }

/-- Concrete all-null page directory for memory-model witnesses. -/
def w_dir : page_directory_t :=
  { tables := fun _ => 0, physical_tables := fun _ => 0, physical_address := 0 }

/-- Concrete memory state for witnesses: allocation counter above every
32-bit address, frame counter past the reserved frame 0. -/
def w_mem : mem_state :=
  { heap := fun _ => empty_table,
    nextVirt := 4294967296,
    nextPhys := 0,
    nextFrame := 1,
    frames := [],
    tables_live := [],
    copies := [] }

/-- Concrete run of `clone` from `w_state` used by the counterexample to
the claimed interrupt discipline of clone. -/
def cex_clone_run : Option (Nat × kernel_state) :=
  clone 4096 11 22 100 200 300 w_state

/-- Interrupt flags recorded at each collaborator call of the
counterexample clone run. -/
def cex_clone_flags : Option (List Bool) :=
  cex_clone_run.map (fun r => r.2.ops.map Prod.snd)

/-- Interrupt flag at the end of the counterexample clone run. -/
def cex_clone_ints : Option Bool :=
  cex_clone_run.map (fun r => r.2.interrupts)

/-- Explicit form of the child record as published by the parent path of
fork (with `directory` the cloned address space) and clone (with
`directory` the caller's current one): fresh pid, fresh kernel stack,
fixed-up `esp`/`ebp`, recorded `eip`, relocated trap-frame pointer. -/
def spawned_child (kss esp ebp eip directory : Nat) (parent : process_t)
    (s : kernel_state) : process_t :=
  { id := s.next_pid,
    thread := { esp := (stack_fixup esp ebp parent.image.stack (s.next_stack + kss)).1,
                ebp := (stack_fixup esp ebp parent.image.stack (s.next_stack + kss)).2,
                eip := eip,
                page_directory := directory },
    image := { stack := s.next_stack + kss },
    syscall_registers := add32 (sub32 (s.next_stack + kss) kss)
      (sub32 parent.syscall_registers (sub32 parent.image.stack kss)) }

/-! ## Theorems: 32-bit fixup arithmetic -/

theorem sub32_sub32_eq_add32 (x a b : Nat) :
    sub32 x (sub32 a b) = add32 x (sub32 b a) := by
  simp only [sub32, add32, U32]
  omega

theorem sub32_eq_sub (a b : Nat) (h1 : b ≤ a) (h2 : a < U32) : sub32 a b = a - b := by
  simp only [sub32, U32] at *
  omega

theorem add32_eq_add (a b : Nat) (h : a + b < U32) : add32 a b = a + b := by
  simp only [add32, U32] at *
  omega

/-- C1: for both orderings of the parent's and child's kernel-stack top
addresses, the fixup used by fork and clone sets the child's saved
`thread.esp` and `thread.ebp` to the parent's live `esp` and `ebp`
translated by the same signed offset `new_stack − cur_stack` in 32-bit
wraparound arithmetic; in particular the two branches compute equal
values for `ebp`. -/
theorem stack_fixup_translates (esp ebp cur_stack new_stack : Nat) :
    stack_fixup esp ebp cur_stack new_stack =
      (add32 esp (sub32 new_stack cur_stack), add32 ebp (sub32 new_stack cur_stack)) := by
  unfold stack_fixup
  by_cases h : cur_stack > new_stack
  · simp only [if_pos h]
    rw [sub32_sub32_eq_add32, sub32_sub32_eq_add32]
  · simp only [if_neg h]
    rw [sub32_sub32_eq_add32]

/-! ## Theorems: scheduler -/

theorem reap_drain_spec (q : List process_t) : ∀ (s : kernel_state),
    s.reapable_queue = q →
    reap_drain q s = { s with reapable_queue := [], reaped := s.reaped ++ q } := by
  induction q with
  | nil =>
    intro s hs
    cases s
    simp_all [reap_drain]
  | cons p rest ih =>
    intro s hs
    rw [reap_drain, ih _ rfl]
    cases s
    simp [List.append_assoc]

/-- C5: whenever `switch_task` captures an `eip` equal to the `0x10000`
sentinel (with tasking installed and another process runnable), it
drains the reapable queue through `reap_process` and returns, leaving
the rest of the state untouched: registers are not stored into
`current_process.thread`, nothing is enqueued as ready, and
`switch_next` is not called. -/
theorem switch_task_sentinel_drains (r : Bool) (esp ebp : Nat) (s : kernel_state)
    (cur : process_t) (hc : s.current_process = some cur)
    (ha : process_available s = true) :
    switch_task r esp ebp SWITCH_SENTINEL s =
      { s with reapable_queue := [], reaped := s.reaped ++ s.reapable_queue } := by
  unfold switch_task
  rw [hc]
  simp [ha, hc, reap_drain_spec s.reapable_queue s rfl]

/-- Witness for C5: draining run from the concrete state `w_state`. -/
theorem switch_task_sentinel_drains_witness :
    w_state.current_process = some w_proc ∧ process_available w_state = true ∧
    switch_task true 7 8 SWITCH_SENTINEL w_state =
      { w_state with reapable_queue := [], reaped := w_state.reaped ++ w_state.reapable_queue } :=
  ⟨rfl, rfl, switch_task_sentinel_drains true 7 8 w_state w_proc rfl rfl⟩

/-- C9: `switch_task` is a no-op, modifying no state at all, when
tasking is not yet installed (`current_process` null) or when no other
process is runnable (`process_available` false). -/
theorem switch_task_noop (r : Bool) (esp ebp eip : Nat) (s : kernel_state)
    (h : s.current_process = none ∨ process_available s = false) :
    switch_task r esp ebp eip s = s := by
  rcases h with h | h
  · simp [switch_task, h]
  · cases hc : s.current_process with
    | none => simp [switch_task, hc]
    | some cur => simp [switch_task, hc, h]

/-- Witness for C9: no-op run from the concrete state `w_state_empty`,
whose ready queue is empty. -/
theorem switch_task_noop_witness :
    (w_state_empty.current_process = none ∨ process_available w_state_empty = false) ∧
    switch_task false 1 2 3 w_state_empty = w_state_empty :=
  ⟨Or.inr rfl, switch_task_noop false 1 2 3 w_state_empty (Or.inr rfl)⟩

/-- C10: the behaviour of `clone` is independent of its `stack_top` and
`stack_old` arguments: from the same state, any two argument pairs give
identical results. -/
theorem clone_ignores_stack_args (kss a b a' b' esp ebp eip : Nat) (s : kernel_state) :
    clone kss a b esp ebp eip s = clone kss a' b' esp ebp eip s := rfl

/-! ## Theorems: fork and clone -/

theorem fork_run (kss esp ebp eip : Nat) (s : kernel_state) (parent : process_t)
    (hp : s.current_process = some parent) :
    fork kss esp ebp eip s =
      some ((spawned_child kss esp ebp eip s.next_dir parent s).id,
        { s with interrupts := true,
                 next_pid := s.next_pid + 1,
                 next_stack := s.next_stack + kss,
                 next_dir := s.next_dir + 1,
                 ready_queue := s.ready_queue ++ [spawned_child kss esp ebp eip s.next_dir parent s],
                 ops := s.ops ++ [(kop.clone_directory_call, false), (kop.spawn_process_call, false),
                   (kop.set_process_environment_call, false), (kop.read_eip_call, false),
                   (kop.memcpy_stack, false), (kop.make_process_ready_call, false)] }) := by
  simp [fork, fork_after_eip, clone_directory_abs, spawn_process, log, IRQ_OFF, IRQ_RES,
    make_process_ready, spawned_child, hp]

theorem clone_run (kss st so esp ebp eip : Nat) (s : kernel_state) (parent : process_t)
    (hp : s.current_process = some parent) :
    clone kss st so esp ebp eip s =
      some ((spawned_child kss esp ebp eip s.current_directory parent s).id,
        { s with next_pid := s.next_pid + 1,
                 next_stack := s.next_stack + kss,
                 ready_queue := s.ready_queue ++ [spawned_child kss esp ebp eip s.current_directory parent s],
                 ops := s.ops ++ [(kop.kprintf_clone parent.syscall_registers, s.interrupts),
                   (kop.spawn_process_call, s.interrupts), (kop.set_process_environment_call, s.interrupts),
                   (kop.read_eip_call, s.interrupts), (kop.memcpy_stack, s.interrupts),
                   (kop.make_process_ready_call, s.interrupts)] }) := by
  simp [clone, clone_after_eip, spawn_process, log, make_process_ready, spawned_child, hp]

/-- C2: fork returns the child's pid (the id of the newly spawned
record) to the parent control flow, and the child record is published
with `thread.eip` equal to the captured `eip`, so that the child, when
scheduled at that address with `current_process` now differing from the
captured parent, returns 0 from the same continuation. -/
theorem fork_returns_twice (kss esp ebp eip : Nat) (s : kernel_state) (parent : process_t)
    (hp : s.current_process = some parent) (hfresh : parent.id ≠ s.next_pid) :
    ∃ child s1, fork kss esp ebp eip s = some (child.id, s1) ∧
      child.id = s.next_pid ∧
      s1.ready_queue = s.ready_queue ++ [child] ∧
      child.thread.eip = eip ∧
      ∀ s2 : kernel_state, s2.current_process = some child →
        fork_after_eip kss esp ebp eip TASK_MAGIC parent child s2 = some (0, s2) := by
  refine ⟨spawned_child kss esp ebp eip s.next_dir parent s, _,
    fork_run kss esp ebp eip s parent hp, rfl, rfl, rfl, ?_⟩
  intro s2 h2
  have hne : spawned_child kss esp ebp eip s.next_dir parent s ≠ parent := by
    intro he
    exact hfresh (by rw [← he]; rfl)
  unfold fork_after_eip
  rw [h2]
  simp [hne]

/-- Witness for C2: fork from the concrete state `w_state`. -/
theorem fork_returns_twice_witness :
    (w_state.current_process = some w_proc ∧ w_proc.id ≠ w_state.next_pid) ∧
    (∃ child s1, fork 4096 1 2 3 w_state = some (child.id, s1) ∧
      child.id = w_state.next_pid ∧
      s1.ready_queue = w_state.ready_queue ++ [child] ∧
      child.thread.eip = 3 ∧
      ∀ s2 : kernel_state, s2.current_process = some child →
        fork_after_eip 4096 1 2 3 TASK_MAGIC w_proc child s2 = some (0, s2)) :=
  ⟨⟨rfl, by decide⟩, fork_returns_twice 4096 1 2 3 w_state w_proc rfl (by decide)⟩

/-- C6 (amended): fork disables interrupts on entry and every
collaborator call of its body runs with interrupts off, re-enabling them
only on the parent path after the child is enqueued; clone, by contrast,
never touches the interrupt state — its body runs at the caller's
interrupt level throughout. -/
theorem fork_irq_discipline (kss st so esp ebp eip : Nat) (s : kernel_state)
    (parent : process_t) (hp : s.current_process = some parent) (hops : s.ops = []) :
    (∃ v s1, fork kss esp ebp eip s = some (v, s1) ∧ s1.interrupts = true ∧
      ∀ e ∈ s1.ops, e.2 = false) ∧
    (∃ v s2, clone kss st so esp ebp eip s = some (v, s2) ∧ s2.interrupts = s.interrupts ∧
      ∀ e ∈ s2.ops, e.2 = s.interrupts) := by
  constructor
  · refine ⟨_, _, fork_run kss esp ebp eip s parent hp, rfl, ?_⟩
    intro e he
    simp [hops] at he
    rcases he with h | h | h | h | h | h <;> simp [h]
  · refine ⟨_, _, clone_run kss st so esp ebp eip s parent hp, rfl, ?_⟩
    intro e he
    simp [hops] at he
    rcases he with h | h | h | h | h | h <;> simp [h]

/-- Witness for C6: fork and clone from the concrete state `w_state`. -/
theorem fork_irq_discipline_witness :
    (w_state.current_process = some w_proc ∧ w_state.ops = []) ∧
    ((∃ v s1, fork 4096 1 2 3 w_state = some (v, s1) ∧ s1.interrupts = true ∧
      ∀ e ∈ s1.ops, e.2 = false) ∧
     (∃ v s2, clone 4096 9 9 1 2 3 w_state = some (v, s2) ∧
      s2.interrupts = w_state.interrupts ∧ ∀ e ∈ s2.ops, e.2 = w_state.interrupts)) :=
  ⟨⟨rfl, rfl⟩, fork_irq_discipline 4096 9 9 1 2 3 w_state w_proc rfl rfl⟩

/-- Counterexample for C6 as stated: running `clone` from the concrete
state `w_state`, whose interrupt flag is on, every collaborator call of
clone's body is executed with interrupts still enabled and the final
interrupt flag is still enabled — clone does not disable interrupts on
entry, and its body does not run with interrupts off. -/
theorem clone_irq_counterexample :
    cex_clone_flags = some [true, true, true, true, true, true] ∧
    cex_clone_ints = some true := by
  constructor <;> rfl

/-- C7: when the parent's `syscall_registers` points within the parent's
kernel-stack region `[stack − KERNEL_STACK_SIZE, stack)`, both fork and
clone set the child's `syscall_registers` to the address at the same
offset from the child's stack base, so the trap-frame pointer again
points within the owning process's kernel-stack region. -/
theorem syscall_registers_relocated (kss st so esp ebp eip : Nat) (s : kernel_state)
    (parent : process_t) (hp : s.current_process = some parent)
    (hkss : kss ≤ parent.image.stack) (hpw : parent.image.stack < U32)
    (hsr1 : parent.image.stack - kss ≤ parent.syscall_registers)
    (hsr2 : parent.syscall_registers < parent.image.stack)
    (hnw : s.next_stack + kss < U32) :
    (∃ child s1, fork kss esp ebp eip s = some (child.id, s1) ∧
      s1.ready_queue = s.ready_queue ++ [child] ∧
      child.image.stack = s.next_stack + kss ∧
      child.syscall_registers =
        (child.image.stack - kss) + (parent.syscall_registers - (parent.image.stack - kss)) ∧
      child.image.stack - kss ≤ child.syscall_registers ∧
      child.syscall_registers < child.image.stack) ∧
    (∃ child s2, clone kss st so esp ebp eip s = some (child.id, s2) ∧
      s2.ready_queue = s.ready_queue ++ [child] ∧
      child.image.stack = s.next_stack + kss ∧
      child.syscall_registers =
        (child.image.stack - kss) + (parent.syscall_registers - (parent.image.stack - kss)) ∧
      child.image.stack - kss ≤ child.syscall_registers ∧
      child.syscall_registers < child.image.stack) := by
  have hu : (0 : Nat) < U32 := by simp [U32]
  have e1 : sub32 (s.next_stack + kss) kss = s.next_stack := by
    rw [sub32_eq_sub _ _ (by omega) hnw]
    omega
  have e2 : sub32 parent.image.stack kss = parent.image.stack - kss :=
    sub32_eq_sub _ _ hkss hpw
  have e3 : sub32 parent.syscall_registers (parent.image.stack - kss) =
      parent.syscall_registers - (parent.image.stack - kss) :=
    sub32_eq_sub _ _ hsr1 (by omega)
  have hoff : parent.syscall_registers - (parent.image.stack - kss) < kss := by omega
  have e4 : add32 s.next_stack (parent.syscall_registers - (parent.image.stack - kss)) =
      s.next_stack + (parent.syscall_registers - (parent.image.stack - kss)) :=
    add32_eq_add _ _ (by omega)
  have hsc : ∀ d, (spawned_child kss esp ebp eip d parent s).syscall_registers =
      s.next_stack + (parent.syscall_registers - (parent.image.stack - kss)) := by
    intro d
    simp only [spawned_child]
    rw [e2, e3, e1, e4]
  constructor
  · refine ⟨spawned_child kss esp ebp eip s.next_dir parent s, _,
      fork_run kss esp ebp eip s parent hp, rfl, rfl, ?_, ?_, ?_⟩
    · rw [hsc]
      simp only [spawned_child]
      omega
    · rw [hsc]
      simp only [spawned_child]
      omega
    · rw [hsc]
      simp only [spawned_child]
      omega
  · refine ⟨spawned_child kss esp ebp eip s.current_directory parent s, _,
      clone_run kss st so esp ebp eip s parent hp, rfl, rfl, ?_, ?_, ?_⟩
    · rw [hsc]
      simp only [spawned_child]
      omega
    · rw [hsc]
      simp only [spawned_child]
      omega
    · rw [hsc]
      simp only [spawned_child]
      omega

/-- Witness for C7: relocation from the concrete state `w_state`, whose
parent trap frame lies inside the parent's 4096-byte kernel stack. -/
theorem syscall_registers_relocated_witness :
    (w_state.current_process = some w_proc ∧ 4096 ≤ w_proc.image.stack ∧
     w_proc.image.stack < U32 ∧ w_proc.image.stack - 4096 ≤ w_proc.syscall_registers ∧
     w_proc.syscall_registers < w_proc.image.stack ∧ w_state.next_stack + 4096 < U32) ∧
    ((∃ child s1, fork 4096 1 2 3 w_state = some (child.id, s1) ∧
      s1.ready_queue = w_state.ready_queue ++ [child] ∧
      child.image.stack = w_state.next_stack + 4096 ∧
      child.syscall_registers =
        (child.image.stack - 4096) + (w_proc.syscall_registers - (w_proc.image.stack - 4096)) ∧
      child.image.stack - 4096 ≤ child.syscall_registers ∧
      child.syscall_registers < child.image.stack) ∧
     (∃ child s2, clone 4096 5 6 1 2 3 w_state = some (child.id, s2) ∧
      s2.ready_queue = w_state.ready_queue ++ [child] ∧
      child.image.stack = w_state.next_stack + 4096 ∧
      child.syscall_registers =
        (child.image.stack - 4096) + (w_proc.syscall_registers - (w_proc.image.stack - 4096)) ∧
      child.image.stack - 4096 ≤ child.syscall_registers ∧
      child.syscall_registers < child.image.stack)) :=
  ⟨⟨rfl, by decide, by decide, by decide, by decide, by decide⟩,
   syscall_registers_relocated 4096 5 6 1 2 3 w_state w_proc rfl (by decide) (by decide)
     (by decide) (by decide) (by decide)⟩

/-! ## Theorems: clone_table characterization -/

theorem set_bits_frame (pg sp : page_t) : (set_bits pg sp).frame = pg.frame := rfl

theorem set_bits_empty_mirror (g : Nat) (sp : page_t) :
    set_bits { empty_page with frame := g } sp =
      { present := sp.present, rw := sp.rw, user := sp.user,
        accessed := sp.accessed, dirty := sp.dirty, frame := g } := by
  cases sp with
  | mk p r u a d f =>
    cases p <;> cases r <;> cases u <;> cases a <;> cases d <;> rfl

theorem clone_table_step_zero (src : page_table_t) (t : page_table_t) (s : mem_state)
    (i : Fin 1024) (h : (src.pages i).frame = 0) :
    clone_table_step src (t, s) i = (t, s) := by
  simp [clone_table_step, h]

theorem clone_table_step_nonzero (src : page_table_t) (t : page_table_t) (s : mem_state)
    (i : Fin 1024) (h : ¬(src.pages i).frame = 0) :
    clone_table_step src (t, s) i =
      ({ t with pages := (Function.update t.pages i
          (set_bits { t.pages i with frame := s.nextFrame } (src.pages i))) },
       { s with nextFrame := s.nextFrame + 1, frames := s.nextFrame :: s.frames,
                copies := s.copies ++ [((src.pages i).frame * 4096, s.nextFrame * 4096)] }) := by
  simp [clone_table_step, h, alloc_frame, copy_page_physical, set_bits_frame]

theorem ctf_nextVirt (src : page_table_t) (l : List (Fin 1024)) :
    ∀ (t : page_table_t) (s : mem_state),
    (l.foldl (clone_table_step src) (t, s)).2.nextVirt = s.nextVirt := by
  induction l with
  | nil => intro t s; rfl
  | cons i r ih =>
    intro t s
    simp only [List.foldl_cons]
    by_cases h : (src.pages i).frame = 0
    · rw [clone_table_step_zero src t s i h, ih t s]
    · rw [clone_table_step_nonzero src t s i h, ih]

theorem ctf_nextPhys (src : page_table_t) (l : List (Fin 1024)) :
    ∀ (t : page_table_t) (s : mem_state),
    (l.foldl (clone_table_step src) (t, s)).2.nextPhys = s.nextPhys := by
  induction l with
  | nil => intro t s; rfl
  | cons i r ih =>
    intro t s
    simp only [List.foldl_cons]
    by_cases h : (src.pages i).frame = 0
    · rw [clone_table_step_zero src t s i h, ih t s]
    · rw [clone_table_step_nonzero src t s i h, ih]

theorem ctf_heap (src : page_table_t) (l : List (Fin 1024)) :
    ∀ (t : page_table_t) (s : mem_state),
    (l.foldl (clone_table_step src) (t, s)).2.heap = s.heap := by
  induction l with
  | nil => intro t s; rfl
  | cons i r ih =>
    intro t s
    simp only [List.foldl_cons]
    by_cases h : (src.pages i).frame = 0
    · rw [clone_table_step_zero src t s i h, ih t s]
    · rw [clone_table_step_nonzero src t s i h, ih]

theorem ctf_tables_live (src : page_table_t) (l : List (Fin 1024)) :
    ∀ (t : page_table_t) (s : mem_state),
    (l.foldl (clone_table_step src) (t, s)).2.tables_live = s.tables_live := by
  induction l with
  | nil => intro t s; rfl
  | cons i r ih =>
    intro t s
    simp only [List.foldl_cons]
    by_cases h : (src.pages i).frame = 0
    · rw [clone_table_step_zero src t s i h, ih t s]
    · rw [clone_table_step_nonzero src t s i h, ih]

theorem ctf_nextFrame (src : page_table_t) (l : List (Fin 1024)) :
    ∀ (t : page_table_t) (s : mem_state),
    (l.foldl (clone_table_step src) (t, s)).2.nextFrame = s.nextFrame + nz_l src l := by
  induction l with
  | nil => intro t s; simp [nz_l]
  | cons i r ih =>
    intro t s
    simp only [List.foldl_cons]
    by_cases h : (src.pages i).frame = 0
    · rw [clone_table_step_zero src t s i h, ih t s]
      simp [nz_l, h]
    · rw [clone_table_step_nonzero src t s i h, ih]
      simp [nz_l, h]
      omega

theorem ctf_frames (src : page_table_t) (l : List (Fin 1024)) :
    ∀ (t : page_table_t) (s : mem_state),
    (l.foldl (clone_table_step src) (t, s)).2.frames =
      (List.range' s.nextFrame (nz_l src l)).reverse ++ s.frames := by
  induction l with
  | nil => intro t s; simp [nz_l]
  | cons i r ih =>
    intro t s
    simp only [List.foldl_cons]
    by_cases h : (src.pages i).frame = 0
    · rw [clone_table_step_zero src t s i h, ih t s]
      simp [nz_l, h]
    · rw [clone_table_step_nonzero src t s i h, ih]
      have hc : (1 : Nat) + nz_l src r = nz_l src r + 1 := Nat.add_comm 1 _
      simp [nz_l, h, hc, List.range'_succ, List.append_assoc]

theorem ctf_copies (src : page_table_t) (l : List (Fin 1024)) :
    ∀ (t : page_table_t) (s : mem_state),
    (l.foldl (clone_table_step src) (t, s)).2.copies =
      s.copies ++ ct_copies src l s.nextFrame := by
  induction l with
  | nil => intro t s; simp [ct_copies]
  | cons i r ih =>
    intro t s
    simp only [List.foldl_cons]
    by_cases h : (src.pages i).frame = 0
    · rw [clone_table_step_zero src t s i h, ih t s]
      simp [ct_copies, h]
    · rw [clone_table_step_nonzero src t s i h, ih]
      simp [ct_copies, h, List.append_assoc]

theorem ctf_fst (src : page_table_t) (l : List (Fin 1024)) :
    ∀ (t : page_table_t) (s : mem_state),
    (l.foldl (clone_table_step src) (t, s)).1 = ct_build src l t s.nextFrame := by
  induction l with
  | nil => intro t s; rfl
  | cons i r ih =>
    intro t s
    simp only [List.foldl_cons]
    by_cases h : (src.pages i).frame = 0
    · rw [clone_table_step_zero src t s i h, ih t s]
      simp [ct_build, h]
    · rw [clone_table_step_nonzero src t s i h, ih]
      simp [ct_build, h]

theorem ctl_nextVirt (src t : page_table_t) (s : mem_state) :
    (clone_table_loop src t s).2.nextVirt = s.nextVirt := by
  unfold clone_table_loop
  exact ctf_nextVirt src (List.finRange 1024) t s

theorem ctl_nextPhys (src t : page_table_t) (s : mem_state) :
    (clone_table_loop src t s).2.nextPhys = s.nextPhys := by
  unfold clone_table_loop
  exact ctf_nextPhys src (List.finRange 1024) t s

theorem ctl_heap (src t : page_table_t) (s : mem_state) :
    (clone_table_loop src t s).2.heap = s.heap := by
  unfold clone_table_loop
  exact ctf_heap src (List.finRange 1024) t s

theorem ctl_tables_live (src t : page_table_t) (s : mem_state) :
    (clone_table_loop src t s).2.tables_live = s.tables_live := by
  unfold clone_table_loop
  exact ctf_tables_live src (List.finRange 1024) t s

theorem ctl_nextFrame (src t : page_table_t) (s : mem_state) :
    (clone_table_loop src t s).2.nextFrame = s.nextFrame + nz_l src (List.finRange 1024) := by
  unfold clone_table_loop
  exact ctf_nextFrame src (List.finRange 1024) t s

theorem ctl_frames (src t : page_table_t) (s : mem_state) :
    (clone_table_loop src t s).2.frames =
      (List.range' s.nextFrame (nz_l src (List.finRange 1024))).reverse ++ s.frames := by
  unfold clone_table_loop
  exact ctf_frames src (List.finRange 1024) t s

theorem ctl_copies (src t : page_table_t) (s : mem_state) :
    (clone_table_loop src t s).2.copies =
      s.copies ++ ct_copies src (List.finRange 1024) s.nextFrame := by
  unfold clone_table_loop
  exact ctf_copies src (List.finRange 1024) t s

theorem ctl_fst (src t : page_table_t) (s : mem_state) :
    (clone_table_loop src t s).1 = ct_build src (List.finRange 1024) t s.nextFrame := by
  unfold clone_table_loop
  exact ctf_fst src (List.finRange 1024) t s

theorem clone_table_eq (src : page_table_t) (s : mem_state) :
    clone_table src s = ((s.nextVirt, s.nextPhys),
      { heap := Function.update s.heap s.nextVirt
          (ct_build src (List.finRange 1024) empty_table s.nextFrame),
        nextVirt := s.nextVirt + 1,
        nextPhys := s.nextPhys + 4096,
        nextFrame := s.nextFrame + nz_l src (List.finRange 1024),
        frames := (List.range' s.nextFrame (nz_l src (List.finRange 1024))).reverse ++ s.frames,
        tables_live := s.nextVirt :: s.tables_live,
        copies := s.copies ++ ct_copies src (List.finRange 1024) s.nextFrame }) := by
  simp only [clone_table, kvmalloc_p, Prod.mk.injEq, mem_state.mk.injEq]
  refine ⟨trivial, ?_, ?_, ?_, ?_, ?_, ?_, ?_⟩
  · rw [ctl_heap, ctl_fst]
  · rw [ctl_nextVirt]
  · rw [ctl_nextPhys]
  · rw [ctl_nextFrame]
  · rw [ctl_frames]
  · rw [ctl_tables_live]
  · rw [ctl_copies]

theorem ct_build_pages_not_mem (src : page_table_t) (l : List (Fin 1024)) :
    ∀ (t : page_table_t) (f : Nat) (j : Fin 1024), j ∉ l →
    (ct_build src l t f).pages j = t.pages j := by
  induction l with
  | nil => intro t f j _; rfl
  | cons i r ih =>
    intro t f j hj
    simp only [List.mem_cons, not_or] at hj
    by_cases h : (src.pages i).frame = 0
    · simp only [ct_build, if_pos h]
      exact ih t f j hj.2
    · simp only [ct_build, if_neg h]
      rw [ih _ _ j hj.2]
      simp [Function.update_noteq hj.1]

theorem ct_build_pages_zero (src : page_table_t) (l : List (Fin 1024)) :
    ∀ (t : page_table_t) (f : Nat) (j : Fin 1024), (src.pages j).frame = 0 →
    (ct_build src l t f).pages j = t.pages j := by
  induction l with
  | nil => intro t f j _; rfl
  | cons i r ih =>
    intro t f j hz
    by_cases h : (src.pages i).frame = 0
    · simp only [ct_build, if_pos h]
      exact ih t f j hz
    · simp only [ct_build, if_neg h]
      rw [ih _ _ j hz]
      have hij : j ≠ i := by
        intro he
        rw [he] at hz
        exact h hz
      simp [Function.update_noteq hij]

theorem ct_build_pages_nonzero (src : page_table_t) (l : List (Fin 1024)) :
    ∀ (t : page_table_t) (f : Nat) (j : Fin 1024), l.Nodup → j ∈ l →
    (src.pages j).frame ≠ 0 →
    ∃ g, f ≤ g ∧
      (ct_build src l t f).pages j = set_bits { t.pages j with frame := g } (src.pages j) ∧
      ((src.pages j).frame * 4096, g * 4096) ∈ ct_copies src l f := by
  induction l with
  | nil =>
    intro t f j _ hj _
    exact absurd hj (List.not_mem_nil j)
  | cons i r ih =>
    intro t f j hnd hj hz
    obtain ⟨hir, hnd'⟩ := List.nodup_cons.mp hnd
    rcases List.mem_cons.mp hj with he | hm
    · subst he
      simp only [ct_build, ct_copies, if_neg hz]
      refine ⟨f, le_refl f, ?_, ?_⟩
      · rw [ct_build_pages_not_mem src r _ _ j hir]
        simp [Function.update_same]
      · exact List.mem_cons_self _ _
    · by_cases h : (src.pages i).frame = 0
      · simp only [ct_build, ct_copies, if_pos h]
        exact ih t f j hnd' hm hz
      · simp only [ct_build, ct_copies, if_neg h]
        have hij : j ≠ i := by
          rintro rfl
          exact hir hm
        obtain ⟨g, hg, he, hc⟩ := ih _ (f + 1) j hnd' hm hz
        refine ⟨g, by omega, ?_, List.mem_cons_of_mem _ hc⟩
        rw [he]
        simp [Function.update_noteq hij]

theorem ct_build_all_zero (src : page_table_t) (hz : ∀ i, (src.pages i).frame = 0) :
    ∀ (l : List (Fin 1024)) (t : page_table_t) (f : Nat), ct_build src l t f = t := by
  intro l
  induction l with
  | nil => intro t f; rfl
  | cons i r ih =>
    intro t f
    simp only [ct_build, if_pos (hz i)]
    exact ih t f

theorem nz_l_all_zero (src : page_table_t) (hz : ∀ i, (src.pages i).frame = 0) :
    ∀ (l : List (Fin 1024)), nz_l src l = 0 := by
  intro l
  induction l with
  | nil => rfl
  | cons i r ih => simp [nz_l, hz i, ih]

theorem ct_copies_all_zero (src : page_table_t) (hz : ∀ i, (src.pages i).frame = 0) :
    ∀ (l : List (Fin 1024)) (f : Nat), ct_copies src l f = [] := by
  intro l
  induction l with
  | nil => intro f; rfl
  | cons i r ih =>
    intro f
    simp only [ct_copies, if_pos (hz i)]
    exact ih f

/-- C8: `clone_table` allocates a fresh (non-zero) frame only for source
entries with a non-zero frame, mirrors exactly the `present`, `rw`,
`user`, `accessed` and `dirty` bits onto the new entry, and requests a
physical copy of the 4 KiB source frame into the new frame; a source
table whose frame fields are all zero therefore yields a clone with no
frames allocated, no copies requested, and all entries zero. -/
theorem clone_table_mirrors (src : page_table_t) (s : mem_state) (hf : 0 < s.nextFrame) :
    (∀ i : Fin 1024, (src.pages i).frame = 0 →
      ((clone_table src s).2.heap s.nextVirt).pages i = empty_page) ∧
    (∀ i : Fin 1024, (src.pages i).frame ≠ 0 →
      ∃ g, 0 < g ∧
        ((clone_table src s).2.heap s.nextVirt).pages i =
          { present := (src.pages i).present, rw := (src.pages i).rw,
            user := (src.pages i).user, accessed := (src.pages i).accessed,
            dirty := (src.pages i).dirty, frame := g } ∧
        ((src.pages i).frame * 4096, g * 4096) ∈ (clone_table src s).2.copies) ∧
    (clone_table src s).2.nextFrame = s.nextFrame + nz_l src (List.finRange 1024) ∧
    ((∀ i, (src.pages i).frame = 0) →
      (clone_table src s).2.frames = s.frames ∧
      (clone_table src s).2.heap s.nextVirt = empty_table ∧
      (clone_table src s).2.copies = s.copies) := by
  rw [clone_table_eq]
  refine ⟨?_, ?_, rfl, ?_⟩
  · intro i hz
    simp only [Function.update_same]
    rw [ct_build_pages_zero src (List.finRange 1024) empty_table s.nextFrame i hz]
    rfl
  · intro i hz
    obtain ⟨g, hg, he, hc⟩ := ct_build_pages_nonzero src (List.finRange 1024) empty_table
      s.nextFrame i (List.nodup_finRange 1024) (List.mem_finRange i) hz
    refine ⟨g, by omega, ?_, ?_⟩
    · simp only [Function.update_same]
      rw [he]
      exact set_bits_empty_mirror g (src.pages i)
    · exact List.mem_append_right _ hc
  · intro hz
    rw [ct_build_all_zero src hz, nz_l_all_zero src hz, ct_copies_all_zero src hz]
    simp [Function.update_same]

/-- Witness for C8: cloning the all-zero table from the concrete memory
state `w_mem`, whose frame allocator starts past the reserved frame 0. -/
theorem clone_table_mirrors_witness :
    0 < w_mem.nextFrame ∧
    (clone_table empty_table w_mem).2.nextFrame =
      w_mem.nextFrame + nz_l empty_table (List.finRange 1024) :=
  ⟨by decide, (clone_table_mirrors empty_table w_mem (by decide)).2.2.1⟩

/-! ## Theorems: list bookkeeping for the clone/free round trip -/

theorem range1_append (a m n : Nat) :
    List.range' a m ++ List.range' (a + m) n = List.range' a (m + n) := by
  have h := List.range'_append a m n 1
  simp only [one_mul] at h
  simpa [Nat.add_comm] using h

theorem erase_cancel (L : List Nat) : ∀ (rest : List Nat), L.Nodup →
    List.foldl List.erase (L.reverse ++ rest) L = rest := by
  induction L with
  | nil => intro rest _; simp
  | cons x T ih =>
    intro rest hnd
    obtain ⟨hx, hnd'⟩ := List.nodup_cons.mp hnd
    simp only [List.reverse_cons, List.foldl_cons]
    rw [List.append_assoc, List.singleton_append]
    rw [List.erase_append_right _ (by simpa using hx)]
    rw [List.erase_cons_head]
    exact ih rest hnd'

theorem frame_list_ct_build (src : page_table_t) (l : List (Fin 1024)) :
    ∀ (t : page_table_t) (f : Nat), l.Nodup → 0 < f →
    (∀ j ∈ l, (t.pages j).frame = 0) →
    frame_list_over l (ct_build src l t f) = List.range' f (nz_l src l) := by
  induction l with
  | nil => intro t f _ _ _; simp [frame_list_over, nz_l]
  | cons i r ih =>
    intro t f hnd hf h0
    obtain ⟨hir, hnd'⟩ := List.nodup_cons.mp hnd
    by_cases h : (src.pages i).frame = 0
    · simp only [ct_build, if_pos h]
      have hTi : (ct_build src r t f).pages i = t.pages i :=
        ct_build_pages_not_mem src r t f i hir
      simp only [frame_list_over, hTi]
      rw [if_pos (h0 i (List.mem_cons_self i r))]
      rw [ih t f hnd' hf (fun j hj => h0 j (List.mem_cons_of_mem i hj))]
      simp [nz_l, h]
    · simp only [ct_build, if_neg h]
      have hTi : (ct_build src r
          { t with pages := (Function.update t.pages i
              (set_bits { t.pages i with frame := f } (src.pages i))) } (f + 1)).pages i =
          set_bits { t.pages i with frame := f } (src.pages i) := by
        rw [ct_build_pages_not_mem src r _ _ i hir]
        simp [Function.update_same]
      simp only [frame_list_over, hTi, set_bits_frame]
      rw [if_neg (show ¬ (({ t.pages i with frame := f } : page_t).frame = 0) by
        simp only []
        omega)]
      rw [ih _ (f + 1) hnd' (by omega) ?_]
      · have hc : (1 : Nat) + nz_l src r = nz_l src r + 1 := Nat.add_comm 1 _
        simp [nz_l, h, hc, List.range'_succ]
      · intro j hj
        have hji : j ≠ i := by
          rintro rfl
          exact hir hj
        simp [Function.update_noteq hji]
        exact h0 j (List.mem_cons_of_mem i hj)

/-! ## Theorems: clone_directory characterization -/

theorem cds_skip (kernel src dir : page_directory_t) (s : mem_state) (i : Fin 1024)
    (h : src.tables i = 0 ∨ src.tables i = PDE_SENTINEL) :
    clone_directory_step kernel src (dir, s) i = (dir, s) := by
  simp only [clone_directory_step]
  rw [if_pos h]

theorem cds_shared (kernel src dir : page_directory_t) (s : mem_state) (i : Fin 1024)
    (hn : ¬(src.tables i = 0 ∨ src.tables i = PDE_SENTINEL))
    (he : kernel.tables i = src.tables i) :
    clone_directory_step kernel src (dir, s) i =
      ({ dir with tables := Function.update dir.tables i (src.tables i),
                  physical_tables := Function.update dir.physical_tables i (src.physical_tables i) },
       s) := by
  simp only [clone_directory_step]
  rw [if_neg hn, if_pos he]

theorem cds_deep (kernel src dir : page_directory_t) (s : mem_state) (i : Fin 1024)
    (hn : ¬(src.tables i = 0 ∨ src.tables i = PDE_SENTINEL))
    (he : ¬kernel.tables i = src.tables i) :
    clone_directory_step kernel src (dir, s) i =
      ({ dir with tables := Function.update dir.tables i s.nextVirt,
                  physical_tables := Function.update dir.physical_tables i (s.nextPhys ||| 7) },
       { heap := Function.update s.heap s.nextVirt
           (ct_build (s.heap (src.tables i)) (List.finRange 1024) empty_table s.nextFrame),
         nextVirt := s.nextVirt + 1,
         nextPhys := s.nextPhys + 4096,
         nextFrame := s.nextFrame + nz_l (s.heap (src.tables i)) (List.finRange 1024),
         frames := (List.range' s.nextFrame
           (nz_l (s.heap (src.tables i)) (List.finRange 1024))).reverse ++ s.frames,
         tables_live := s.nextVirt :: s.tables_live,
         copies := s.copies ++ ct_copies (s.heap (src.tables i)) (List.finRange 1024) s.nextFrame }) := by
  simp only [clone_directory_step]
  rw [if_neg hn, if_neg he, clone_table_eq]

theorem cds_step_frame_mono (kernel src dir : page_directory_t) (s : mem_state)
    (i : Fin 1024) :
    s.nextFrame ≤ (clone_directory_step kernel src (dir, s) i).2.nextFrame := by
  by_cases h1 : src.tables i = 0 ∨ src.tables i = PDE_SENTINEL
  · rw [cds_skip kernel src dir s i h1]
  · by_cases h2 : kernel.tables i = src.tables i
    · rw [cds_shared kernel src dir s i h1 h2]
    · rw [cds_deep kernel src dir s i h1 h2]
      exact Nat.le_add_right _ _

theorem cds_step_virt_mono (kernel src dir : page_directory_t) (s : mem_state)
    (i : Fin 1024) :
    s.nextVirt ≤ (clone_directory_step kernel src (dir, s) i).2.nextVirt := by
  by_cases h1 : src.tables i = 0 ∨ src.tables i = PDE_SENTINEL
  · rw [cds_skip kernel src dir s i h1]
  · by_cases h2 : kernel.tables i = src.tables i
    · rw [cds_shared kernel src dir s i h1 h2]
    · rw [cds_deep kernel src dir s i h1 h2]
      exact Nat.le_succ _

theorem cds_step_heap_pres (kernel src dir : page_directory_t) (s : mem_state)
    (i : Fin 1024) (a : Nat) (ha : a < s.nextVirt) :
    (clone_directory_step kernel src (dir, s) i).2.heap a = s.heap a := by
  by_cases h1 : src.tables i = 0 ∨ src.tables i = PDE_SENTINEL
  · rw [cds_skip kernel src dir s i h1]
  · by_cases h2 : kernel.tables i = src.tables i
    · rw [cds_shared kernel src dir s i h1 h2]
    · rw [cds_deep kernel src dir s i h1 h2]
      exact Function.update_noteq (by omega) _ _

theorem cdf_frame_mono (kernel src : page_directory_t) (l : List (Fin 1024)) :
    ∀ (dir : page_directory_t) (s : mem_state),
    s.nextFrame ≤ (l.foldl (clone_directory_step kernel src) (dir, s)).2.nextFrame := by
  induction l with
  | nil => intro dir s; exact le_refl _
  | cons i r ih =>
    intro dir s
    simp only [List.foldl_cons]
    exact le_trans (cds_step_frame_mono kernel src dir s i) (ih _ _)

theorem cdf_virt_mono (kernel src : page_directory_t) (l : List (Fin 1024)) :
    ∀ (dir : page_directory_t) (s : mem_state),
    s.nextVirt ≤ (l.foldl (clone_directory_step kernel src) (dir, s)).2.nextVirt := by
  induction l with
  | nil => intro dir s; exact le_refl _
  | cons i r ih =>
    intro dir s
    simp only [List.foldl_cons]
    exact le_trans (cds_step_virt_mono kernel src dir s i) (ih _ _)

theorem cdf_heap_pres (kernel src : page_directory_t) (l : List (Fin 1024)) :
    ∀ (dir : page_directory_t) (s : mem_state) (a : Nat), a < s.nextVirt →
    (l.foldl (clone_directory_step kernel src) (dir, s)).2.heap a = s.heap a := by
  induction l with
  | nil => intro dir s a _; rfl
  | cons i r ih =>
    intro dir s a ha
    simp only [List.foldl_cons]
    rw [ih _ _ a (lt_of_lt_of_le ha (cds_step_virt_mono kernel src dir s i))]
    exact cds_step_heap_pres kernel src dir s i a ha

theorem cdf_untouched (kernel src : page_directory_t) (l : List (Fin 1024)) :
    ∀ (dir : page_directory_t) (s : mem_state) (j : Fin 1024), j ∉ l →
    (l.foldl (clone_directory_step kernel src) (dir, s)).1.tables j = dir.tables j ∧
    (l.foldl (clone_directory_step kernel src) (dir, s)).1.physical_tables j =
      dir.physical_tables j := by
  induction l with
  | nil => intro dir s j _; exact ⟨rfl, rfl⟩
  | cons i r ih =>
    intro dir s j hj
    simp only [List.mem_cons, not_or] at hj
    simp only [List.foldl_cons]
    by_cases h1 : src.tables i = 0 ∨ src.tables i = PDE_SENTINEL
    · rw [cds_skip kernel src dir s i h1]
      exact ih dir s j hj.2
    · by_cases h2 : kernel.tables i = src.tables i
      · rw [cds_shared kernel src dir s i h1 h2]
        obtain ⟨u1, u2⟩ := ih _ s j hj.2
        rw [u1, u2]
        constructor
        · exact Function.update_noteq hj.1 _ _
        · exact Function.update_noteq hj.1 _ _
      · rw [cds_deep kernel src dir s i h1 h2]
        obtain ⟨u1, u2⟩ := ih _ _ j hj.2
        rw [u1, u2]
        constructor
        · exact Function.update_noteq hj.1 _ _
        · exact Function.update_noteq hj.1 _ _

theorem cdf_frames (kernel src : page_directory_t) (l : List (Fin 1024)) :
    ∀ (dir : page_directory_t) (s : mem_state), ∃ d : Nat,
    (l.foldl (clone_directory_step kernel src) (dir, s)).2.nextFrame = s.nextFrame + d ∧
    (l.foldl (clone_directory_step kernel src) (dir, s)).2.frames =
      (List.range' s.nextFrame d).reverse ++ s.frames := by
  induction l with
  | nil => intro dir s; exact ⟨0, rfl, by simp⟩
  | cons i r ih =>
    intro dir s
    simp only [List.foldl_cons]
    obtain ⟨dir1, s1, hstep⟩ : ∃ d1 t1, clone_directory_step kernel src (dir, s) i = (d1, t1) :=
      ⟨(clone_directory_step kernel src (dir, s) i).1,
       (clone_directory_step kernel src (dir, s) i).2, rfl⟩
    rw [hstep]
    by_cases h1 : src.tables i = 0 ∨ src.tables i = PDE_SENTINEL
    · rw [cds_skip kernel src dir s i h1] at hstep
      injection hstep with hd hs
      subst hd
      subst hs
      exact ih dir s
    · by_cases h2 : kernel.tables i = src.tables i
      · rw [cds_shared kernel src dir s i h1 h2] at hstep
        injection hstep with hd hs
        subst hd
        subst hs
        exact ih _ s
      · rw [cds_deep kernel src dir s i h1 h2] at hstep
        injection hstep with hd hs
        have hf1 : s1.nextFrame =
            s.nextFrame + nz_l (s.heap (src.tables i)) (List.finRange 1024) := by
          rw [← hs]
        have hf2 : s1.frames = (List.range' s.nextFrame
            (nz_l (s.heap (src.tables i)) (List.finRange 1024))).reverse ++ s.frames := by
          rw [← hs]
        obtain ⟨d, hN, hF⟩ := ih dir1 s1
        refine ⟨nz_l (s.heap (src.tables i)) (List.finRange 1024) + d, ?_, ?_⟩
        · rw [hN, hf1]
          omega
        · rw [hF, hf2, hf1]
          rw [← List.append_assoc, ← List.reverse_append, range1_append]

theorem cdf_live (kernel src : page_directory_t) (l : List (Fin 1024)) :
    ∀ (dir : page_directory_t) (s : mem_state), ∃ d : Nat,
    (l.foldl (clone_directory_step kernel src) (dir, s)).2.nextVirt = s.nextVirt + d ∧
    (l.foldl (clone_directory_step kernel src) (dir, s)).2.tables_live =
      (List.range' s.nextVirt d).reverse ++ s.tables_live := by
  induction l with
  | nil => intro dir s; exact ⟨0, rfl, by simp⟩
  | cons i r ih =>
    intro dir s
    simp only [List.foldl_cons]
    obtain ⟨dir1, s1, hstep⟩ : ∃ d1 t1, clone_directory_step kernel src (dir, s) i = (d1, t1) :=
      ⟨(clone_directory_step kernel src (dir, s) i).1,
       (clone_directory_step kernel src (dir, s) i).2, rfl⟩
    rw [hstep]
    by_cases h1 : src.tables i = 0 ∨ src.tables i = PDE_SENTINEL
    · rw [cds_skip kernel src dir s i h1] at hstep
      injection hstep with hd hs
      subst hd
      subst hs
      exact ih dir s
    · by_cases h2 : kernel.tables i = src.tables i
      · rw [cds_shared kernel src dir s i h1 h2] at hstep
        injection hstep with hd hs
        subst hd
        subst hs
        exact ih _ s
      · rw [cds_deep kernel src dir s i h1 h2] at hstep
        injection hstep with hd hs
        have hf1 : s1.nextVirt = s.nextVirt + 1 := by
          rw [← hs]
        have hf2 : s1.tables_live = (List.range' s.nextVirt 1).reverse ++ s.tables_live := by
          rw [← hs]
          simp
        obtain ⟨d, hN, hF⟩ := ih dir1 s1
        refine ⟨1 + d, ?_, ?_⟩
        · rw [hN, hf1]
          omega
        · rw [hF, hf2, hf1]
          rw [← List.append_assoc, ← List.reverse_append, range1_append]

theorem cdf_entries (kernel src : page_directory_t) (l : List (Fin 1024)) :
    ∀ (dir : page_directory_t) (s : mem_state), l.Nodup →
    (∀ j, src.tables j < s.nextVirt) →
    ∀ i ∈ l,
    ((src.tables i = 0 ∨ src.tables i = PDE_SENTINEL) →
      (l.foldl (clone_directory_step kernel src) (dir, s)).1.tables i = dir.tables i ∧
      (l.foldl (clone_directory_step kernel src) (dir, s)).1.physical_tables i =
        dir.physical_tables i) ∧
    (¬(src.tables i = 0 ∨ src.tables i = PDE_SENTINEL) → kernel.tables i = src.tables i →
      (l.foldl (clone_directory_step kernel src) (dir, s)).1.tables i = src.tables i ∧
      (l.foldl (clone_directory_step kernel src) (dir, s)).1.physical_tables i =
        src.physical_tables i) ∧
    (¬(src.tables i = 0 ∨ src.tables i = PDE_SENTINEL) → kernel.tables i ≠ src.tables i →
      s.nextVirt ≤ (l.foldl (clone_directory_step kernel src) (dir, s)).1.tables i ∧
      (l.foldl (clone_directory_step kernel src) (dir, s)).1.tables i <
        (l.foldl (clone_directory_step kernel src) (dir, s)).2.nextVirt ∧
      ∃ sA p sB, clone_table (s.heap (src.tables i)) sA =
          (((l.foldl (clone_directory_step kernel src) (dir, s)).1.tables i, p), sB) ∧
        (l.foldl (clone_directory_step kernel src) (dir, s)).1.physical_tables i = p ||| 7) := by
  induction l with
  | nil =>
    intro dir s _ _ i hi
    exact absurd hi (List.not_mem_nil i)
  | cons i' r ih =>
    intro dir s hnd hsrc i hi
    obtain ⟨hir, hnd'⟩ := List.nodup_cons.mp hnd
    simp only [List.foldl_cons]
    obtain ⟨dir1, s1, hstep⟩ : ∃ d1 t1, clone_directory_step kernel src (dir, s) i' = (d1, t1) :=
      ⟨(clone_directory_step kernel src (dir, s) i').1,
       (clone_directory_step kernel src (dir, s) i').2, rfl⟩
    rw [hstep]
    rcases List.mem_cons.mp hi with rfl | hm
    · -- i is the head index
      by_cases h1 : src.tables i = 0 ∨ src.tables i = PDE_SENTINEL
      · rw [cds_skip kernel src dir s i h1] at hstep
        injection hstep with hd hs
        subst hd
        subst hs
        obtain ⟨u1, u2⟩ := cdf_untouched kernel src r dir s i hir
        exact ⟨fun _ => ⟨u1, u2⟩, fun hn _ => absurd h1 hn, fun hn _ => absurd h1 hn⟩
      · by_cases h2 : kernel.tables i = src.tables i
        · rw [cds_shared kernel src dir s i h1 h2] at hstep
          injection hstep with hd hs
          subst hs
          obtain ⟨u1, u2⟩ := cdf_untouched kernel src r dir1 s i hir
          refine ⟨fun hsk => absurd hsk h1, fun _ _ => ⟨?_, ?_⟩, fun _ hne => absurd h2 hne⟩
          · rw [u1, ← hd]
            exact Function.update_same i _ _
          · rw [u2, ← hd]
            exact Function.update_same i _ _
        · rw [cds_deep kernel src dir s i h1 h2] at hstep
          injection hstep with hd hs
          obtain ⟨u1, u2⟩ := cdf_untouched kernel src r dir1 s1 i hir
          have ht : (r.foldl (clone_directory_step kernel src) (dir1, s1)).1.tables i =
              s.nextVirt := by
            rw [u1, ← hd]
            exact Function.update_same i _ _
          have hp : (r.foldl (clone_directory_step kernel src) (dir1, s1)).1.physical_tables i =
              s.nextPhys ||| 7 := by
            rw [u2, ← hd]
            exact Function.update_same i _ _
          have hv1 : s1.nextVirt = s.nextVirt + 1 := by rw [← hs]
          refine ⟨fun hsk => absurd hsk h1, fun _ he => absurd he h2, fun _ _ => ⟨?_, ?_, ?_⟩⟩
          · rw [ht]
          · rw [ht]
            calc s.nextVirt < s1.nextVirt := by omega
              _ ≤ _ := cdf_virt_mono kernel src r dir1 s1
          · refine ⟨s, s.nextPhys, ((clone_table (s.heap (src.tables i)) s).2), ?_, ?_⟩
            · rw [ht, clone_table_eq]
            · rw [hp]
    · -- i is in the tail
      have hne : i ≠ i' := by
        rintro rfl
        exact hir hm
      by_cases h1 : src.tables i' = 0 ∨ src.tables i' = PDE_SENTINEL
      · rw [cds_skip kernel src dir s i' h1] at hstep
        injection hstep with hd hs
        subst hd
        subst hs
        exact ih dir s hnd' hsrc i hm
      · by_cases h2 : kernel.tables i' = src.tables i' 
        · rw [cds_shared kernel src dir s i' h1 h2] at hstep
          injection hstep with hd hs
          subst hs
          obtain ⟨a1, a2, a3⟩ := ih dir1 s hnd' hsrc i hm
          refine ⟨fun hsk => ?_, a2, a3⟩
          obtain ⟨b1, b2⟩ := a1 hsk
          rw [b1, b2, ← hd]
          constructor
          · exact Function.update_noteq hne _ _
          · exact Function.update_noteq hne _ _
        · rw [cds_deep kernel src dir s i' h1 h2] at hstep
          injection hstep with hd hs
          have hv1 : s1.nextVirt = s.nextVirt + 1 := by rw [← hs]
          have hsrc1 : ∀ j, src.tables j < s1.nextVirt := by
            intro j
            have := hsrc j
            omega
          have hheap : s1.heap (src.tables i) = s.heap (src.tables i) := by
            rw [← hs]
            exact Function.update_noteq (by have := hsrc i; omega) _ _
          obtain ⟨a1, a2, a3⟩ := ih dir1 s1 hnd' hsrc1 i hm
          refine ⟨fun hsk => ?_, a2, fun hn he => ?_⟩
          · obtain ⟨b1, b2⟩ := a1 hsk
            rw [b1, b2, ← hd]
            constructor
            · exact Function.update_noteq hne _ _
            · exact Function.update_noteq hne _ _
          · obtain ⟨b1, b2, sA, p, sB, b3, b4⟩ := a3 hn he
            refine ⟨by omega, b2, sA, p, sB, ?_, b4⟩
            rw [← hheap]
            exact b3

theorem cdf_freed (kernel src : page_directory_t) (l : List (Fin 1024)) :
    ∀ (dir : page_directory_t) (s : mem_state), l.Nodup →
    PDE_SENTINEL < s.nextVirt →
    (∀ j, kernel.tables j < s.nextVirt) →
    (∀ j, src.tables j < s.nextVirt) →
    0 < s.nextFrame →
    (∀ j ∈ l, dir.tables j = 0) →
    ∃ df dv : Nat,
      (l.foldl (clone_directory_step kernel src) (dir, s)).2.nextFrame = s.nextFrame + df ∧
      (l.foldl (clone_directory_step kernel src) (dir, s)).2.nextVirt = s.nextVirt + dv ∧
      freed_frames_over kernel (l.foldl (clone_directory_step kernel src) (dir, s)).1
        (l.foldl (clone_directory_step kernel src) (dir, s)).2.heap l =
        List.range' s.nextFrame df ∧
      freed_addrs_over kernel (l.foldl (clone_directory_step kernel src) (dir, s)).1 l =
        List.range' s.nextVirt dv := by
  induction l with
  | nil =>
    intro dir s _ _ _ _ _ _
    exact ⟨0, 0, rfl, rfl, rfl, rfl⟩
  | cons i r ih =>
    intro dir s hnd hsent hker hsrc hfr hdir
    obtain ⟨hir, hnd'⟩ := List.nodup_cons.mp hnd
    simp only [List.foldl_cons]
    obtain ⟨dir1, s1, hstep⟩ : ∃ d1 t1, clone_directory_step kernel src (dir, s) i = (d1, t1) :=
      ⟨(clone_directory_step kernel src (dir, s) i).1,
       (clone_directory_step kernel src (dir, s) i).2, rfl⟩
    rw [hstep]
    obtain ⟨u1, u2⟩ := cdf_untouched kernel src r dir1 s1 i hir
    by_cases h1 : src.tables i = 0 ∨ src.tables i = PDE_SENTINEL
    · rw [cds_skip kernel src dir s i h1] at hstep
      injection hstep with hd hs
      subst hd
      subst hs
      obtain ⟨df, dv, e1, e2, e3, e4⟩ :=
        ih dir s hnd' hsent hker hsrc hfr (fun j hj => hdir j (List.mem_cons_of_mem i hj))
      have hcond : (r.foldl (clone_directory_step kernel src) (dir, s)).1.tables i = 0 ∨
          (r.foldl (clone_directory_step kernel src) (dir, s)).1.tables i = PDE_SENTINEL :=
        Or.inl (u1.trans (hdir i (List.mem_cons_self i r)))
      refine ⟨df, dv, e1, e2, ?_, ?_⟩
      · simp only [freed_frames_over]
        rw [if_pos hcond, e3]
        simp
      · simp only [freed_addrs_over]
        rw [if_pos hcond, e4]
        simp
    · by_cases h2 : kernel.tables i = src.tables i
      · rw [cds_shared kernel src dir s i h1 h2] at hstep
        injection hstep with hd hs
        subst hs
        have hdir1 : ∀ j ∈ r, dir1.tables j = 0 := by
          intro j hj
          have hne : j ≠ i := by
            rintro rfl
            exact hir hj
          have hu : dir1.tables j = dir.tables j := by
            rw [← hd]
            exact Function.update_noteq hne _ _
          rw [hu]
          exact hdir j (List.mem_cons_of_mem i hj)
        obtain ⟨df, dv, e1, e2, e3, e4⟩ := ih dir1 s hnd' hsent hker hsrc hfr hdir1
        have hDi : (r.foldl (clone_directory_step kernel src) (dir1, s)).1.tables i =
            src.tables i := by
          rw [u1, ← hd]
          exact Function.update_same i _ _
        have hcond1 : ¬((r.foldl (clone_directory_step kernel src) (dir1, s)).1.tables i = 0 ∨
            (r.foldl (clone_directory_step kernel src) (dir1, s)).1.tables i = PDE_SENTINEL) := by
          rw [hDi]
          exact h1
        have hcond2 : kernel.tables i =
            (r.foldl (clone_directory_step kernel src) (dir1, s)).1.tables i := by
          rw [hDi]
          exact h2
        refine ⟨df, dv, e1, e2, ?_, ?_⟩
        · simp only [freed_frames_over]
          rw [if_neg hcond1, if_pos hcond2, e3]
          simp
        · simp only [freed_addrs_over]
          rw [if_neg hcond1, if_pos hcond2, e4]
          simp
      · rw [cds_deep kernel src dir s i h1 h2] at hstep
        injection hstep with hd hs
        have hv1 : s1.nextVirt = s.nextVirt + 1 := by rw [← hs]
        have hf1 : s1.nextFrame =
            s.nextFrame + nz_l (s.heap (src.tables i)) (List.finRange 1024) := by rw [← hs]
        have hdir1 : ∀ j ∈ r, dir1.tables j = 0 := by
          intro j hj
          have hne : j ≠ i := by
            rintro rfl
            exact hir hj
          have hu : dir1.tables j = dir.tables j := by
            rw [← hd]
            exact Function.update_noteq hne _ _
          rw [hu]
          exact hdir j (List.mem_cons_of_mem i hj)
        obtain ⟨df, dv, e1, e2, e3, e4⟩ := ih dir1 s1 hnd' (by omega)
          (fun j => by have := hker j; omega) (fun j => by have := hsrc j; omega)
          (by omega) hdir1
        have hDi : (r.foldl (clone_directory_step kernel src) (dir1, s1)).1.tables i =
            s.nextVirt := by
          rw [u1, ← hd]
          exact Function.update_same i _ _
        have hheapv : (r.foldl (clone_directory_step kernel src) (dir1, s1)).2.heap s.nextVirt =
            ct_build (s.heap (src.tables i)) (List.finRange 1024) empty_table s.nextFrame := by
          rw [cdf_heap_pres kernel src r dir1 s1 s.nextVirt (by omega)]
          rw [← hs]
          exact Function.update_same s.nextVirt _ _
        have hblock : table_frame_list
            ((r.foldl (clone_directory_step kernel src) (dir1, s1)).2.heap s.nextVirt) =
            List.range' s.nextFrame (nz_l (s.heap (src.tables i)) (List.finRange 1024)) := by
          rw [hheapv]
          exact frame_list_ct_build (s.heap (src.tables i)) (List.finRange 1024) empty_table
            s.nextFrame (List.nodup_finRange 1024) hfr (fun j _ => rfl)
        have hsent2 : (4294967295 : Nat) < s.nextVirt := hsent
        have hcond1 : ¬((r.foldl (clone_directory_step kernel src) (dir1, s1)).1.tables i = 0 ∨
            (r.foldl (clone_directory_step kernel src) (dir1, s1)).1.tables i = PDE_SENTINEL) := by
          rw [hDi]
          simp only [PDE_SENTINEL]
          omega
        have hcond2 : ¬(kernel.tables i =
            (r.foldl (clone_directory_step kernel src) (dir1, s1)).1.tables i) := by
          rw [hDi]
          have := hker i
          omega
        refine ⟨nz_l (s.heap (src.tables i)) (List.finRange 1024) + df, 1 + dv, ?_, ?_, ?_, ?_⟩
        · rw [e1, hf1]
          omega
        · rw [e2, hv1]
          omega
        · simp only [freed_frames_over]
          rw [if_neg hcond1, if_neg hcond2, hDi]
          rw [hblock, e3, hf1]
          exact range1_append _ _ _
        · simp only [freed_addrs_over]
          rw [if_neg hcond1, if_neg hcond2, hDi]
          rw [e4, hv1]
          rw [show ([(s.nextVirt : Nat)] : List Nat) = List.range' s.nextVirt 1 by simp]
          exact range1_append s.nextVirt 1 dv

/-! ## Theorems: free_directory characterization -/

theorem ftp_fold (t : page_table_t) (l : List (Fin 1024)) : ∀ (s : mem_state),
    ((l.foldl (free_table_pages_step t) s).frames =
      List.foldl List.erase s.frames (frame_list_over l t)) ∧
    (l.foldl (free_table_pages_step t) s).heap = s.heap ∧
    (l.foldl (free_table_pages_step t) s).tables_live = s.tables_live := by
  induction l with
  | nil => intro s; exact ⟨rfl, rfl, rfl⟩
  | cons j r ih =>
    intro s
    simp only [List.foldl_cons, frame_list_over]
    by_cases h : (t.pages j).frame = 0
    · rw [if_pos h]
      have hstep : free_table_pages_step t s j = s := by
        simp only [free_table_pages_step, if_pos h]
      rw [hstep]
      exact ih s
    · rw [if_neg h]
      have hstep : free_table_pages_step t s j =
          { s with frames := s.frames.erase (t.pages j).frame } := by
        simp only [free_table_pages_step, if_neg h]
        rfl
      rw [hstep]
      obtain ⟨f1, f2, f3⟩ := ih { s with frames := s.frames.erase (t.pages j).frame }
      exact ⟨f1, f2, f3⟩

theorem ftp_loop_spec (t : page_table_t) (s : mem_state) :
    ((free_table_pages_loop t s).frames =
      List.foldl List.erase s.frames (table_frame_list t)) ∧
    (free_table_pages_loop t s).heap = s.heap ∧
    (free_table_pages_loop t s).tables_live = s.tables_live := by
  unfold free_table_pages_loop table_frame_list
  exact ftp_fold t (List.finRange 1024) s

theorem kfree_heap (a : Nat) (t : mem_state) : (kfree a t).heap = t.heap := rfl

theorem kfree_frames (a : Nat) (t : mem_state) : (kfree a t).frames = t.frames := rfl

theorem kfree_live (a : Nat) (t : mem_state) :
    (kfree a t).tables_live = (t.tables_live).erase a := rfl

theorem fds_skip (kernel dir : page_directory_t) (s : mem_state) (i : Fin 1024)
    (h1 : dir.tables i = 0 ∨ dir.tables i = PDE_SENTINEL) :
    free_directory_step kernel dir s i = s := by
  simp only [free_directory_step, if_pos h1]

theorem fds_shared (kernel dir : page_directory_t) (s : mem_state) (i : Fin 1024)
    (h1 : ¬(dir.tables i = 0 ∨ dir.tables i = PDE_SENTINEL))
    (h2 : kernel.tables i = dir.tables i) :
    free_directory_step kernel dir s i = s := by
  simp only [free_directory_step, if_neg h1, if_pos h2]

theorem fds_deep (kernel dir : page_directory_t) (s : mem_state) (i : Fin 1024)
    (h1 : ¬(dir.tables i = 0 ∨ dir.tables i = PDE_SENTINEL))
    (h2 : ¬kernel.tables i = dir.tables i) :
    free_directory_step kernel dir s i =
      kfree (dir.tables i) (free_table_pages_loop (s.heap (dir.tables i)) s) := by
  simp only [free_directory_step, if_neg h1, if_neg h2]

theorem fds_heap (kernel dir : page_directory_t) (s : mem_state) (i : Fin 1024) :
    (free_directory_step kernel dir s i).heap = s.heap := by
  by_cases h1 : dir.tables i = 0 ∨ dir.tables i = PDE_SENTINEL
  · rw [fds_skip kernel dir s i h1]
  · by_cases h2 : kernel.tables i = dir.tables i
    · rw [fds_shared kernel dir s i h1 h2]
    · rw [fds_deep kernel dir s i h1 h2, kfree_heap]
      exact (ftp_loop_spec (s.heap (dir.tables i)) s).2.1

theorem fdf_heap (kernel dir : page_directory_t) (l : List (Fin 1024)) : ∀ (s : mem_state),
    (l.foldl (free_directory_step kernel dir) s).heap = s.heap := by
  induction l with
  | nil => intro s; rfl
  | cons i r ih =>
    intro s
    rw [List.foldl_cons, ih, fds_heap]

theorem fdf_live (kernel dir : page_directory_t) (l : List (Fin 1024)) : ∀ (s : mem_state),
    (l.foldl (free_directory_step kernel dir) s).tables_live =
      List.foldl List.erase s.tables_live (freed_addrs_over kernel dir l) := by
  induction l with
  | nil => intro s; rfl
  | cons i r ih =>
    intro s
    rw [List.foldl_cons, ih]
    simp only [freed_addrs_over, List.foldl_append]
    by_cases h1 : dir.tables i = 0 ∨ dir.tables i = PDE_SENTINEL
    · rw [fds_skip kernel dir s i h1, if_pos h1, List.foldl_nil]
    · by_cases h2 : kernel.tables i = dir.tables i
      · rw [fds_shared kernel dir s i h1 h2, if_neg h1, if_pos h2, List.foldl_nil]
      · rw [fds_deep kernel dir s i h1 h2, kfree_live,
          (ftp_loop_spec (s.heap (dir.tables i)) s).2.2,
          if_neg h1, if_neg h2, List.foldl_cons, List.foldl_nil]

theorem fdf_frames (kernel dir : page_directory_t) (l : List (Fin 1024)) : ∀ (s : mem_state),
    (l.foldl (free_directory_step kernel dir) s).frames =
      List.foldl List.erase s.frames (freed_frames_over kernel dir s.heap l) := by
  induction l with
  | nil => intro s; rfl
  | cons i r ih =>
    intro s
    rw [List.foldl_cons, ih, fds_heap]
    simp only [freed_frames_over, List.foldl_append]
    by_cases h1 : dir.tables i = 0 ∨ dir.tables i = PDE_SENTINEL
    · rw [fds_skip kernel dir s i h1, if_pos h1, List.foldl_nil]
    · by_cases h2 : kernel.tables i = dir.tables i
      · rw [fds_shared kernel dir s i h1 h2, if_neg h1, if_pos h2, List.foldl_nil]
      · rw [fds_deep kernel dir s i h1 h2, kfree_frames,
          (ftp_loop_spec (s.heap (dir.tables i)) s).1,
          if_neg h1, if_neg h2]

/-! ## Theorems: clone_directory characterization and the round trip -/

theorem clone_directory_eq (kernel src : page_directory_t) (s : mem_state) :
    clone_directory kernel src s =
      ((s.nextVirt, (clone_directory_loop kernel src (cd_dir0 s) (cd_state0 s)).1),
       (clone_directory_loop kernel src (cd_dir0 s) (cd_state0 s)).2) := rfl

theorem free_directory_eq (kernel : page_directory_t) (a : Nat) (dir : page_directory_t)
    (t : mem_state) :
    free_directory kernel a dir t = kfree a (free_directory_loop kernel dir t) := rfl

theorem cdl_body (kernel src dir : page_directory_t) (s : mem_state) :
    clone_directory_loop kernel src dir s =
      (List.finRange 1024).foldl (clone_directory_step kernel src) (dir, s) := by
  unfold clone_directory_loop
  rfl

theorem fdl_body (kernel dir : page_directory_t) (t : mem_state) :
    free_directory_loop kernel dir t =
      (List.finRange 1024).foldl (free_directory_step kernel dir) t := by
  unfold free_directory_loop
  rfl

theorem fdl_frames (kernel dir : page_directory_t) (t : mem_state) :
    (free_directory_loop kernel dir t).frames =
      List.foldl List.erase t.frames
        (freed_frames_over kernel dir t.heap (List.finRange 1024)) := by
  rw [fdl_body]
  exact fdf_frames kernel dir (List.finRange 1024) t

theorem fdl_live (kernel dir : page_directory_t) (t : mem_state) :
    (free_directory_loop kernel dir t).tables_live =
      List.foldl List.erase t.tables_live
        (freed_addrs_over kernel dir (List.finRange 1024)) := by
  rw [fdl_body]
  exact fdf_live kernel dir (List.finRange 1024) t

theorem cdl_frames (kernel src dir : page_directory_t) (s : mem_state) :
    ∃ d : Nat,
      (clone_directory_loop kernel src dir s).2.nextFrame = s.nextFrame + d ∧
      (clone_directory_loop kernel src dir s).2.frames =
        (List.range' s.nextFrame d).reverse ++ s.frames := by
  rw [cdl_body]
  exact cdf_frames kernel src (List.finRange 1024) dir s

theorem cdl_live (kernel src dir : page_directory_t) (s : mem_state) :
    ∃ d : Nat,
      (clone_directory_loop kernel src dir s).2.nextVirt = s.nextVirt + d ∧
      (clone_directory_loop kernel src dir s).2.tables_live =
        (List.range' s.nextVirt d).reverse ++ s.tables_live := by
  rw [cdl_body]
  exact cdf_live kernel src (List.finRange 1024) dir s

theorem cdl_freed (kernel src dir : page_directory_t) (s : mem_state)
    (hsent : PDE_SENTINEL < s.nextVirt)
    (hker : ∀ j, kernel.tables j < s.nextVirt)
    (hsrc : ∀ j, src.tables j < s.nextVirt)
    (hfr : 0 < s.nextFrame)
    (hdir : ∀ j, dir.tables j = 0) :
    ∃ df dv : Nat,
      (clone_directory_loop kernel src dir s).2.nextFrame = s.nextFrame + df ∧
      (clone_directory_loop kernel src dir s).2.nextVirt = s.nextVirt + dv ∧
      freed_frames_over kernel (clone_directory_loop kernel src dir s).1
        (clone_directory_loop kernel src dir s).2.heap (List.finRange 1024) =
        List.range' s.nextFrame df ∧
      freed_addrs_over kernel (clone_directory_loop kernel src dir s).1 (List.finRange 1024) =
        List.range' s.nextVirt dv := by
  rw [cdl_body]
  exact cdf_freed kernel src (List.finRange 1024) dir s (List.nodup_finRange 1024) hsent hker
    hsrc hfr (fun j _ => hdir j)

theorem cdl_entries (kernel src dir : page_directory_t) (s : mem_state)
    (hsrc : ∀ j, src.tables j < s.nextVirt) (i : Fin 1024) :
    ((src.tables i = 0 ∨ src.tables i = PDE_SENTINEL) →
      (clone_directory_loop kernel src dir s).1.tables i = dir.tables i ∧
      (clone_directory_loop kernel src dir s).1.physical_tables i = dir.physical_tables i) ∧
    (¬(src.tables i = 0 ∨ src.tables i = PDE_SENTINEL) → kernel.tables i = src.tables i →
      (clone_directory_loop kernel src dir s).1.tables i = src.tables i ∧
      (clone_directory_loop kernel src dir s).1.physical_tables i = src.physical_tables i) ∧
    (¬(src.tables i = 0 ∨ src.tables i = PDE_SENTINEL) → kernel.tables i ≠ src.tables i →
      s.nextVirt ≤ (clone_directory_loop kernel src dir s).1.tables i ∧
      (clone_directory_loop kernel src dir s).1.tables i <
        (clone_directory_loop kernel src dir s).2.nextVirt ∧
      ∃ sA p sB, clone_table (s.heap (src.tables i)) sA =
          (((clone_directory_loop kernel src dir s).1.tables i, p), sB) ∧
        (clone_directory_loop kernel src dir s).1.physical_tables i = p ||| 7) := by
  rw [cdl_body]
  exact cdf_entries kernel src (List.finRange 1024) dir s (List.nodup_finRange 1024) hsrc i
    (List.mem_finRange i)

theorem fst_pair {α β : Type} (a : α) (b : β) : (a, b).1 = a := rfl

theorem snd_pair {α β : Type} (a : α) (b : β) : (a, b).2 = b := rfl

theorem cd_state0_frames (s : mem_state) : (cd_state0 s).frames = s.frames := rfl

theorem cd_state0_live (s : mem_state) :
    (cd_state0 s).tables_live = s.nextVirt :: s.tables_live := rfl

theorem cd_state0_heap (s : mem_state) : (cd_state0 s).heap = s.heap := rfl


theorem pair_a {α β γ : Type} (a : α) (b : β) (c : γ) : ((a, b), c).1.1 = a :=
  (congrArg Prod.fst (fst_pair (a, b) c)).trans (fst_pair a b)

theorem pair_b {α β γ : Type} (a : α) (b : β) (c : γ) : ((a, b), c).1.2 = b :=
  (congrArg Prod.snd (fst_pair (a, b) c)).trans (snd_pair a b)

theorem pair_c {α β γ : Type} (a : α) (b : β) (c : γ) : ((a, b), c).2 = c :=
  snd_pair (a, b) c

theorem cd_state0_virt (s : mem_state) : (cd_state0 s).nextVirt = s.nextVirt + 1 := rfl

theorem cd_mid_body (kernel src : page_directory_t) (s : mem_state) (i : Fin 1024) :
    cd_mid kernel src s i =
      ((List.finRange 1024).take i.val).foldl (clone_directory_step kernel src)
        (cd_dir0 s, cd_state0 s) := rfl

theorem finRange_split (i : Fin 1024) :
    List.finRange 1024 =
      (List.finRange 1024).take i.val ++ i :: (List.finRange 1024).drop (i.val + 1) := by
  have h : i.val < (List.finRange 1024).length := by
    rw [List.length_finRange]
    exact i.isLt
  have hget : (List.finRange 1024)[i.val] = i := by
    rw [List.getElem_finRange]
    exact Fin.ext rfl
  have hdrop : (List.finRange 1024).drop i.val =
      i :: (List.finRange 1024).drop (i.val + 1) :=
    (List.drop_eq_getElem_cons h).trans
      (congrArg (fun x => x :: (List.finRange 1024).drop (i.val + 1)) hget)
  conv_lhs => rw [← List.take_append_drop i.val (List.finRange 1024), hdrop]

theorem finRange_parts_not_mem (i : Fin 1024) :
    i ∉ (List.finRange 1024).take i.val ∧ i ∉ (List.finRange 1024).drop (i.val + 1) := by
  have hnd := List.nodup_finRange 1024
  rw [finRange_split i, List.nodup_append] at hnd
  obtain ⟨h1, h2, h3⟩ := hnd
  obtain ⟨h4, h5⟩ := List.nodup_cons.mp h2
  exact ⟨fun hm => h3 hm (List.mem_cons_self i _), h4⟩

theorem cds_deep_call (kernel src dir : page_directory_t) (s : mem_state) (i : Fin 1024)
    (hn : ¬(src.tables i = 0 ∨ src.tables i = PDE_SENTINEL))
    (he : ¬kernel.tables i = src.tables i) :
    clone_directory_step kernel src (dir, s) i =
      ({ dir with
          tables := (Function.update dir.tables i
            (clone_table (s.heap (src.tables i)) s).1.1),
          physical_tables := (Function.update dir.physical_tables i
            ((clone_table (s.heap (src.tables i)) s).1.2 ||| 0x07)) },
       (clone_table (s.heap (src.tables i)) s).2) := by
  simp only [clone_directory_step]
  rw [if_neg hn, if_neg he]

theorem cdl_at (kernel src : page_directory_t) (s : mem_state) (i : Fin 1024) :
    clone_directory_loop kernel src (cd_dir0 s) (cd_state0 s) =
      ((List.finRange 1024).drop (i.val + 1)).foldl (clone_directory_step kernel src)
        (clone_directory_step kernel src (cd_mid kernel src s i) i) := by
  rw [cdl_body]
  conv_lhs => rw [finRange_split i]
  rw [List.foldl_append, List.foldl_cons, ← cd_mid_body]

theorem cdf_untouched_p (kernel src : page_directory_t) (l : List (Fin 1024))
    (p : page_directory_t × mem_state) (j : Fin 1024) (hj : j ∉ l) :
    (l.foldl (clone_directory_step kernel src) p).1.tables j = p.1.tables j ∧
    (l.foldl (clone_directory_step kernel src) p).1.physical_tables j =
      p.1.physical_tables j :=
  cdf_untouched kernel src l p.1 p.2 j hj

theorem cdl_entry_at (kernel src : page_directory_t) (s : mem_state) (i : Fin 1024) :
    (clone_directory_loop kernel src (cd_dir0 s) (cd_state0 s)).1.tables i =
      (clone_directory_step kernel src (cd_mid kernel src s i) i).1.tables i ∧
    (clone_directory_loop kernel src (cd_dir0 s) (cd_state0 s)).1.physical_tables i =
      (clone_directory_step kernel src (cd_mid kernel src s i) i).1.physical_tables i := by
  rw [cdl_at kernel src s i]
  exact cdf_untouched_p kernel src ((List.finRange 1024).drop (i.val + 1))
    (clone_directory_step kernel src (cd_mid kernel src s i) i) i
    (finRange_parts_not_mem i).2

theorem cd_mid_heap (kernel src : page_directory_t) (s : mem_state) (i : Fin 1024)
    (a : Nat) (ha : a < s.nextVirt) :
    (cd_mid kernel src s i).2.heap a = s.heap a := by
  rw [cd_mid_body]
  have hp := cdf_heap_pres kernel src ((List.finRange 1024).take i.val)
    (cd_dir0 s) (cd_state0 s) a (Nat.lt_succ_of_lt ha)
  rw [cd_state0_heap] at hp
  exact hp

theorem cd_mid_virt (kernel src : page_directory_t) (s : mem_state) (i : Fin 1024) :
    s.nextVirt + 1 ≤ (cd_mid kernel src s i).2.nextVirt := by
  rw [cd_mid_body]
  have hv := cdf_virt_mono kernel src ((List.finRange 1024).take i.val)
    (cd_dir0 s) (cd_state0 s)
  rw [cd_state0_virt] at hv
  exact hv

/-- C3: for every index `i` of the source directory, `clone_directory`
skips entries whose `tables[i]` is null or the sentinel `0xFFFFFFFF`
(leaving the new entry empty); when `kernel_directory.tables[i]` equals
`src.tables[i]` it copies both `tables[i]` and `physical_tables[i]`
verbatim (shallow share); otherwise the loop, at the state `cd_mid` it
has actually reached when entry `i` comes up, performs exactly the
`clone_table` call on the source's table and stores that call's fresh
table address (strictly above every pre-existing address) together with
its physical address ORed with the PDE flags `0x07` (present, writable,
user), and those two entries survive unchanged to the returned
directory. -/
theorem clone_directory_cases (kernel src : page_directory_t) (s : mem_state)
    (hok : mem_ok kernel src s) (i : Fin 1024) :
    ((src.tables i = 0 ∨ src.tables i = PDE_SENTINEL) →
      (clone_directory kernel src s).1.2.tables i = 0 ∧
      (clone_directory kernel src s).1.2.physical_tables i = 0) ∧
    (¬(src.tables i = 0 ∨ src.tables i = PDE_SENTINEL) → kernel.tables i = src.tables i →
      (clone_directory kernel src s).1.2.tables i = src.tables i ∧
      (clone_directory kernel src s).1.2.physical_tables i = src.physical_tables i) ∧
    (¬(src.tables i = 0 ∨ src.tables i = PDE_SENTINEL) → kernel.tables i ≠ src.tables i →
      clone_directory_step kernel src (cd_mid kernel src s i) i =
        ({ (cd_mid kernel src s i).1 with
            tables := (Function.update (cd_mid kernel src s i).1.tables i
              (clone_table (s.heap (src.tables i)) (cd_mid kernel src s i).2).1.1),
            physical_tables := (Function.update (cd_mid kernel src s i).1.physical_tables i
              ((clone_table (s.heap (src.tables i)) (cd_mid kernel src s i).2).1.2 ||| 0x07)) },
         (clone_table (s.heap (src.tables i)) (cd_mid kernel src s i).2).2) ∧
      s.nextVirt < (clone_directory kernel src s).1.2.tables i ∧
      (clone_directory kernel src s).1.2.tables i =
        (clone_table (s.heap (src.tables i)) (cd_mid kernel src s i).2).1.1 ∧
      (clone_directory kernel src s).1.2.physical_tables i =
        (clone_table (s.heap (src.tables i)) (cd_mid kernel src s i).2).1.2 ||| 0x07) := by
  have hE := cdl_entries kernel src (cd_dir0 s) (cd_state0 s)
    (fun j => Nat.lt_succ_of_lt (hok.src_lt j)) i
  rw [clone_directory_eq, pair_b]
  refine ⟨?_, ?_, ?_⟩
  · intro h1
    obtain ⟨u1, u2⟩ := hE.1 h1
    rw [u1, u2]
    exact ⟨rfl, rfl⟩
  · intro h1 h2
    exact hE.2.1 h1 h2
  · intro h1 h2
    obtain ⟨u1, u2⟩ := cdl_entry_at kernel src s i
    obtain ⟨md, ms, hmid⟩ : ∃ a b, cd_mid kernel src s i = (a, b) :=
      ⟨(cd_mid kernel src s i).1, (cd_mid kernel src s i).2, rfl⟩
    have hheap : ms.heap (src.tables i) = s.heap (src.tables i) := by
      have hp := cd_mid_heap kernel src s i (src.tables i) (hok.src_lt i)
      rw [hmid, snd_pair] at hp
      exact hp
    have hstep := cds_deep_call kernel src md ms i h1 h2
    rw [hheap] at hstep
    have hTi : (clone_directory_step kernel src (cd_mid kernel src s i) i).1.tables i =
        (clone_table (s.heap (src.tables i)) ms).1.1 := by
      rw [hmid, hstep, fst_pair]
      exact Function.update_same _ _ _
    have hPi : (clone_directory_step kernel src (cd_mid kernel src s i) i).1.physical_tables i =
        (clone_table (s.heap (src.tables i)) ms).1.2 ||| 0x07 := by
      rw [hmid, hstep, fst_pair]
      exact Function.update_same _ _ _
    refine ⟨?_, ?_, ?_, ?_⟩
    · rw [hmid, fst_pair, snd_pair]
      exact hstep
    · rw [u1, hTi, clone_table_eq, pair_a]
      have hv := cd_mid_virt kernel src s i
      rw [hmid, snd_pair] at hv
      omega
    · rw [u1, hTi, hmid, snd_pair]
    · rw [u2, hPi, hmid, snd_pair]

/-- Closed witness for the C3 theorem: over the concrete well-formed
memory state, cloning the all-null directory lands index 0 in the skip
case and leaves the new entry empty. -/
theorem clone_directory_cases_witness :
    mem_ok w_dir w_dir w_mem ∧
    ((w_dir.tables 0 = 0 ∨ w_dir.tables 0 = PDE_SENTINEL) →
      (clone_directory w_dir w_dir w_mem).1.2.tables 0 = 0 ∧
      (clone_directory w_dir w_dir w_mem).1.2.physical_tables 0 = 0) :=
  ⟨⟨by decide, fun _ => (by decide : (0 : Nat) < 4294967296),
     fun _ => (by decide : (0 : Nat) < 4294967296), by decide⟩,
   (clone_directory_cases w_dir w_dir w_mem
     ⟨by decide, fun _ => (by decide : (0 : Nat) < 4294967296),
      fun _ => (by decide : (0 : Nat) < 4294967296), by decide⟩ 0).1⟩

/-- C4: freeing the directory returned by `clone_directory` (at its
returned address, in the post-clone memory state) hands back to the
allocator exactly the frames and tables the clone claimed: the free
list of frames and the list of live heap allocations both return to
their pre-clone values, so nothing is leaked and no kernel-shared table
is freed. -/
theorem clone_free_roundtrip (kernel src : page_directory_t) (s : mem_state)
    (hok : mem_ok kernel src s) :
    (free_directory kernel (clone_directory kernel src s).1.1
        (clone_directory kernel src s).1.2 (clone_directory kernel src s).2).frames =
      s.frames ∧
    (free_directory kernel (clone_directory kernel src s).1.1
        (clone_directory kernel src s).1.2 (clone_directory kernel src s).2).tables_live =
      s.tables_live := by
  obtain ⟨df, dv, e1, e2, e3, e4⟩ := cdl_freed kernel src (cd_dir0 s) (cd_state0 s)
    (Nat.lt_succ_of_lt hok.sentinel_lt)
    (fun j => Nat.lt_succ_of_lt (hok.kernel_lt j))
    (fun j => Nat.lt_succ_of_lt (hok.src_lt j))
    hok.frame_pos
    (fun j => rfl)
  obtain ⟨d, f1, f2⟩ := cdl_frames kernel src (cd_dir0 s) (cd_state0 s)
  obtain ⟨dl, g1, g2⟩ := cdl_live kernel src (cd_dir0 s) (cd_state0 s)
  have hdd : d = df := by omega
  have hvv : dl = dv := by omega
  subst hdd
  subst hvv
  rw [clone_directory_eq, pair_a, pair_b, pair_c]
  constructor
  · rw [free_directory_eq, kfree_frames, fdl_frames, e3, f2]
    rw [erase_cancel (List.range' (cd_state0 s).nextFrame d) (cd_state0 s).frames
      (List.nodup_range' _ _), cd_state0_frames]
  · rw [free_directory_eq, kfree_live, fdl_live, e4, g2]
    rw [erase_cancel (List.range' (cd_state0 s).nextVirt dl) (cd_state0 s).tables_live
      (List.nodup_range' _ _), cd_state0_live, List.erase_cons_head]

/-- Closed witness for the C4 theorem: the clone/free round trip over
the concrete well-formed memory state restores the free-frame list
exactly. -/
theorem clone_free_roundtrip_witness :
    mem_ok w_dir w_dir w_mem ∧
    (free_directory w_dir (clone_directory w_dir w_dir w_mem).1.1
        (clone_directory w_dir w_dir w_mem).1.2 (clone_directory w_dir w_dir w_mem).2).frames =
      w_mem.frames :=
  ⟨⟨by decide, fun _ => (by decide : (0 : Nat) < 4294967296),
     fun _ => (by decide : (0 : Nat) < 4294967296), by decide⟩,
   (clone_free_roundtrip w_dir w_dir w_mem
     ⟨by decide, fun _ => (by decide : (0 : Nat) < 4294967296),
      fun _ => (by decide : (0 : Nat) < 4294967296), by decide⟩).1⟩
